import Mathlib

/-!
Verification of the uptime-forge probe supervisor core.

This file shallowly embeds the data model and the operations of the
repository's `src/checker.rs`, `src/config.rs` and `src/db.rs` in Lean 4
and proves the specification's claims about them.  Machine integers are
modelled as `Nat`/`Int` with explicit truncation where the source relies
on overflow or saturation; effectful primitives (network probes, the
wall clock, the process environment) are parameters of the embedded
functions, so every definition here is executable.
-/

namespace UptimeForge

/-! ## Data model (`src/config.rs`, `src/checker.rs`) -/

/-- `CheckType` from `src/config.rs`: the kind of health check. -/
inductive CheckType
  | http
  | tcp
  | dns
deriving DecidableEq, Repr

/-- `HttpMethod` from `src/config.rs`. -/
inductive HttpMethod
  | get
  | post
  | put
  | patch
  | delete
  | head
  | options
deriving DecidableEq, Repr

/-- `Endpoint` from `src/config.rs`: one endpoint descriptor.
Integer fields (`u64`, `u16`, `u32` in the source) are modelled as `Nat`;
the `headers` `HashMap` is modelled as an association list. -/
structure Endpoint where
  addr : String
  check_type : CheckType
  description : Option String
  group : Option String
  tags : List String
  interval : Nat
  timeout : Nat
  expected_status : Nat
  skip_tls_verification : Bool
  method : HttpMethod
  headers : List (String × String)
  body : Option String
  retries : Nat
  retry_delay : Nat
  alert_after_failures : Nat
  alert_channels : List String
  expected_records : List String
deriving DecidableEq, Repr

/-- `ErrorType` from `src/checker.rs`: classification of failed checks. -/
inductive ErrorType
  | timeout
  | dns
  | tls
  | connection
  | statusMismatch
  | tcpRefused
  | dnsNxdomain
  | dnsMismatch
  | clientBuild
  | unknown
deriving DecidableEq, Repr

/-- `ErrorType::as_str` from `src/checker.rs`. -/
def ErrorType.as_str : ErrorType → String
  | .timeout => "timeout"
  | .dns => "dns"
  | .tls => "tls"
  | .connection => "connection"
  | .statusMismatch => "status_mismatch"
  | .tcpRefused => "tcp_refused"
  | .dnsNxdomain => "dns_nxdomain"
  | .dnsMismatch => "dns_mismatch"
  | .clientBuild => "client_build"
  | .unknown => "unknown"

/-- `CheckResult` from `src/checker.rs`: the outcome of one check.
`status_code : u16` and `response_time_ms : u64` are modelled as `Nat`. -/
structure CheckResult where
  name : String
  description : Option String
  group : Option String
  tags : List String
  addr : String
  check_type : CheckType
  is_up : Bool
  status_code : Option Nat
  response_time_ms : Option Nat
  error : Option String
  error_type : Option ErrorType
deriving DecidableEq, Repr

/-! ## Association-list maps

The source keeps endpoints, runner handles and current results in
`HashMap<String, _>` values.  A `HashMap` is a finite map with unique
keys and unspecified iteration order; we model it as an association
list together with the usual operations, and carry the no-duplicate-keys
invariant through the theorems that need it. -/

/-- Model of `HashMap::contains_key`. -/
def mapContains (m : List (String × α)) (k : String) : Bool :=
  m.any (fun kv => kv.1 = k)

/-- Model of `HashMap::get` (returning a copy of the value). -/
def mapGet? (m : List (String × α)) (k : String) : Option α :=
  (m.find? (fun kv => kv.1 = k)).map (·.2)

/-- Model of `HashMap::remove` (dropping the key's entry, if any). -/
def mapRemove (m : List (String × α)) (k : String) : List (String × α) :=
  m.filter (fun kv => kv.1 ≠ k)

/-- Model of `HashMap::insert` (replacing any existing entry). -/
def mapInsert (m : List (String × α)) (k : String) (v : α) : List (String × α) :=
  (k, v) :: mapRemove m k

/-- The key list of a map. -/
def mapKeys (m : List (String × α)) : List String :=
  m.map (·.1)

theorem mapContains_iff (m : List (String × α)) (k : String) :
    mapContains m k = true ↔ k ∈ mapKeys m := by
  simp [mapContains, mapKeys, List.any_eq_true, List.mem_map]

theorem mem_mapKeys_remove (m : List (String × α)) (k k' : String) :
    k' ∈ mapKeys (mapRemove m k) ↔ (k' ∈ mapKeys m ∧ k' ≠ k) := by
  simp only [mapKeys, mapRemove, List.mem_map, List.mem_filter]
  constructor
  · rintro ⟨kv, ⟨hm, hne⟩, hk⟩
    subst hk
    simp only [ne_eq, decide_not, Bool.not_eq_true', decide_eq_false_iff_not] at hne
    exact ⟨⟨kv, hm, rfl⟩, hne⟩
  · rintro ⟨⟨kv, hm, hk⟩, hne⟩
    subst hk
    refine ⟨kv, ⟨hm, ?_⟩, rfl⟩
    simpa using hne

theorem mem_mapKeys_insert (m : List (String × α)) (k k' : String) (v : α) :
    k' ∈ mapKeys (mapInsert m k v) ↔ (k' = k ∨ k' ∈ mapKeys m) := by
  simp only [mapInsert, mapKeys, List.map_cons, List.mem_cons]
  have hr : ∀ (l : List (String × α)), List.map (fun x : String × α => x.1) l = mapKeys l :=
    fun _ => rfl
  rw [hr, hr, mem_mapKeys_remove]
  constructor
  · rintro (h | ⟨hm, _⟩)
    · exact Or.inl h
    · exact Or.inr hm
  · rintro (h | hm)
    · exact Or.inl h
    · by_cases hk : k' = k
      · exact Or.inl hk
      · exact Or.inr ⟨hm, hk⟩

theorem mapKeys_remove_nodup (m : List (String × α)) (k : String)
    (h : (mapKeys m).Nodup) : (mapKeys (mapRemove m k)).Nodup := by
  simp only [mapKeys, mapRemove]
  exact (List.Sublist.map _ (List.filter_sublist m)).nodup h

theorem mapKeys_insert_nodup (m : List (String × α)) (k : String) (v : α)
    (h : (mapKeys m).Nodup) : (mapKeys (mapInsert m k v)).Nodup := by
  simp only [mapInsert, mapKeys, List.map_cons]
  refine List.nodup_cons.2 ⟨?_, mapKeys_remove_nodup m k h⟩
  rw [← mapKeys, mem_mapKeys_remove]
  rintro ⟨-, hne⟩
  exact hne rfl

/-! ## Retry driver (`check_endpoint`, `src/checker.rs` lines 113-140)

`check_endpoint` performs `retries + 1` attempts of the underlying probe
primitive, returning as soon as an attempt reports `is_up` and otherwise
returning the last attempt's result.  The probe primitive is effectful
(network I/O), so it is modelled as an oracle `probe : Nat → CheckResult`
giving the outcome of each attempt, indexed from 0.  The embedding also
counts how many times the oracle is invoked. -/

/-- The loop body of `check_endpoint`: starting at attempt index `attempt`
with `fuel` attempts remaining and `last` as `last_result`, run the probe
until it reports up or attempts are exhausted.  Returns the final
`last_result` together with the number of probe invocations performed. -/
def checkAttemptsFrom (probe : Nat → CheckResult) :
    Nat → Nat → CheckResult → CheckResult × Nat
  | _, 0, last => (last, 0)
  | attempt, fuel + 1, _ =>
    let r := probe attempt
    if r.is_up then (r, 1)
    else
      let rest := checkAttemptsFrom probe (attempt + 1) fuel r
      (rest.1, rest.2 + 1)

/-- `base_result` from `src/checker.rs`, given the already-resolved
address (environment resolution is factored out; see `resolved_addr`). -/
def base_result (name : String) (resolvedAddr : String) (e : Endpoint) : CheckResult :=
  { name := name
    description := e.description
    group := e.group
    tags := e.tags
    addr := resolvedAddr
    check_type := e.check_type
    is_up := false
    status_code := none
    response_time_ms := none
    error := none
    error_type := none }

/-- `check_endpoint` from `src/checker.rs`: `max_attempts = retries + 1`
attempts of the probe, short-circuiting on the first `is_up` outcome.
Returns the outcome together with the number of probe invocations. -/
def check_endpoint (probe : Nat → CheckResult) (name resolvedAddr : String)
    (e : Endpoint) : CheckResult × Nat :=
  checkAttemptsFrom probe 0 (e.retries + 1) (base_result name resolvedAddr e)

theorem checkAttemptsFrom_step_up (probe : Nat → CheckResult)
    (attempt fuel : Nat) (last : CheckResult)
    (h : (probe attempt).is_up = true) :
    checkAttemptsFrom probe attempt (fuel + 1) last = (probe attempt, 1) := by
  simp [checkAttemptsFrom, h]

theorem checkAttemptsFrom_step_down (probe : Nat → CheckResult)
    (attempt fuel : Nat) (last : CheckResult)
    (h : (probe attempt).is_up = false) :
    checkAttemptsFrom probe attempt (fuel + 1) last =
      ((checkAttemptsFrom probe (attempt + 1) fuel (probe attempt)).1,
       (checkAttemptsFrom probe (attempt + 1) fuel (probe attempt)).2 + 1) := by
  simp [checkAttemptsFrom, h]

theorem checkAttemptsFrom_count_le (probe : Nat → CheckResult)
    (fuel : Nat) : ∀ (attempt : Nat) (last : CheckResult),
    (checkAttemptsFrom probe attempt fuel last).2 ≤ fuel := by
  induction fuel with
  | zero => intro attempt last; simp [checkAttemptsFrom]
  | succ n ih =>
    intro attempt last
    by_cases h : (probe attempt).is_up
    · rw [checkAttemptsFrom_step_up probe attempt n last h]
      omega
    · rw [checkAttemptsFrom_step_down probe attempt n last (by simpa using h)]
      exact Nat.succ_le_succ (ih (attempt + 1) (probe attempt))

theorem checkAttemptsFrom_all_down (probe : Nat → CheckResult)
    (fuel : Nat) :
    ∀ attempt last, (∀ j, j < fuel + 1 → (probe (attempt + j)).is_up = false) →
    checkAttemptsFrom probe attempt (fuel + 1) last =
      (probe (attempt + fuel), fuel + 1) := by
  induction fuel with
  | zero =>
    intro attempt last h
    have h0 := h 0 (by omega)
    simp only [Nat.add_zero] at h0
    rw [checkAttemptsFrom_step_down probe attempt 0 last h0]
    simp [checkAttemptsFrom]
  | succ n ih =>
    intro attempt last h
    have h0 := h 0 (by omega)
    simp only [Nat.add_zero] at h0
    have hrest := ih (attempt + 1) (probe attempt) (fun j hj => by
      have := h (j + 1) (by omega)
      simpa [Nat.add_assoc, Nat.add_comm 1 j] using this)
    rw [checkAttemptsFrom_step_down probe attempt (n + 1) last h0, hrest]
    have ha : attempt + 1 + n = attempt + (n + 1) := by omega
    rw [ha]

theorem checkAttemptsFrom_first_success (probe : Nat → CheckResult)
    (fuel : Nat) :
    ∀ attempt last i, i < fuel →
    (∀ j, j < i → (probe (attempt + j)).is_up = false) →
    (probe (attempt + i)).is_up = true →
    checkAttemptsFrom probe attempt fuel last = (probe (attempt + i), i + 1) := by
  induction fuel with
  | zero => intro _ _ i hi; omega
  | succ n ih =>
    intro attempt last i hi hdown hup
    cases i with
    | zero =>
      simp only [Nat.add_zero] at hup
      rw [checkAttemptsFrom_step_up probe attempt n last hup]
      simp
    | succ m =>
      have h0 := hdown 0 (by omega)
      simp only [Nat.add_zero] at h0
      have hrest := ih (attempt + 1) (probe attempt) m (by omega)
        (fun j hj => by
          have := hdown (j + 1) (by omega)
          simpa [Nat.add_assoc, Nat.add_comm 1 j] using this)
        (by simpa [Nat.add_assoc, Nat.add_comm 1 m] using hup)
      rw [checkAttemptsFrom_step_down probe attempt n last h0, hrest]
      have ha : attempt + 1 + m = attempt + (m + 1) := by omega
      rw [ha]

/-- Concrete endpoint descriptor used by witnesses: two retries. -/
def witnessEndpoint : Endpoint :=
  { addr := "https://example.test/health"
    check_type := .http
    description := none
    group := none
    tags := []
    interval := 60
    timeout := 10
    expected_status := 200
    skip_tls_verification := false
    method := .get
    headers := []
    body := none
    retries := 2
    retry_delay := 0
    alert_after_failures := 3
    alert_channels := []
    expected_records := [] }

/-- Concrete probe oracle used by witnesses: down on attempt 0, up from
attempt 1 on. -/
def witnessProbe : Nat → CheckResult := fun i =>
  { name := "w"
    description := none
    group := none
    tags := []
    addr := "https://example.test/health"
    check_type := .http
    is_up := decide (1 ≤ i)
    status_code := some (if 1 ≤ i then 200 else 500)
    response_time_ms := some 5
    error := none
    error_type := none }

/-- C4: for every endpoint descriptor with `retries = R` and every probe
oracle, the retry driver `check_endpoint` invokes the probe at most
`R + 1` times; it invokes it exactly once and returns the first outcome
when attempt 0 is up; it returns the first up outcome as soon as one
occurs; and when all `R + 1` attempts are down it returns the outcome of
the last attempt, having invoked the probe `R + 1` times. -/
theorem retry_driver_correct (probe : Nat → CheckResult)
    (name resolvedAddr : String) (e : Endpoint) :
    (check_endpoint probe name resolvedAddr e).2 ≤ e.retries + 1 ∧
    ((probe 0).is_up = true →
      check_endpoint probe name resolvedAddr e = (probe 0, 1)) ∧
    (∀ i, i ≤ e.retries → (∀ j, j < i → (probe j).is_up = false) →
      (probe i).is_up = true →
      check_endpoint probe name resolvedAddr e = (probe i, i + 1)) ∧
    ((∀ j, j ≤ e.retries → (probe j).is_up = false) →
      check_endpoint probe name resolvedAddr e =
        (probe e.retries, e.retries + 1)) := by
  refine ⟨?_, ?_, ?_, ?_⟩
  · exact checkAttemptsFrom_count_le probe (e.retries + 1) 0 _
  · intro h
    exact checkAttemptsFrom_step_up probe 0 e.retries _ h
  · intro i hi hdown hup
    have := checkAttemptsFrom_first_success probe (e.retries + 1) 0
      (base_result name resolvedAddr e) i
      (by omega) (fun j hj => by simpa using hdown j hj) (by simpa using hup)
    simpa [check_endpoint] using this
  · intro h
    have := checkAttemptsFrom_all_down probe e.retries 0
      (base_result name resolvedAddr e)
      (fun j hj => by simpa using h j (by omega))
    simpa [check_endpoint] using this

/-- Witness for C4 at a concrete probe and endpoint: attempt 0 is down,
attempt 1 is up, so the driver returns attempt 1's outcome after exactly
two probe invocations. -/
theorem retry_driver_correct_witness :
    check_endpoint witnessProbe "w" "https://example.test/health" witnessEndpoint =
      (witnessProbe 1, 2) := by
  have h := (retry_driver_correct witnessProbe "w" "https://example.test/health"
    witnessEndpoint).2.2.1 1 (by decide)
    (fun j hj => by
      have hj0 : j = 0 := by omega
      subst hj0
      decide)
    (by decide)
  exact h

/-! ## Historical buckets (`src/db.rs`)

`TimeRange`, `UptimeEvent`, `NUM_BUCKETS` and `compute_bucket_statuses`
from `src/db.rs`.  `chrono` timestamps and durations have nanosecond
precision and form a linear order with exact integer arithmetic, so both
are modelled as `Int` nanosecond counts; `Utc::now()` is a parameter. -/

/-- `TimeRange` from `src/db.rs`. -/
inductive TimeRange
  | minutes30
  | hour1
  | hours3
  | hours8
  | hours24
  | days7
  | days30
deriving DecidableEq, Repr

/-- `TimeRange::from_str` from `src/db.rs`: parse failure falls back to
one hour. -/
def TimeRange.from_str (s : String) : TimeRange :=
  if s = "30m" then .minutes30
  else if s = "3h" then .hours3
  else if s = "8h" then .hours8
  else if s = "24h" then .hours24
  else if s = "7d" then .days7
  else if s = "30d" then .days30
  else .hour1

/-- `TimeRange::as_duration` from `src/db.rs`, in nanoseconds. -/
def TimeRange.as_duration : TimeRange → Int
  | .minutes30 => 30 * 60 * 1000000000
  | .hour1 => 3600 * 1000000000
  | .hours3 => 3 * 3600 * 1000000000
  | .hours8 => 8 * 3600 * 1000000000
  | .hours24 => 24 * 3600 * 1000000000
  | .days7 => 7 * 86400 * 1000000000
  | .days30 => 30 * 86400 * 1000000000

/-- `BucketStatus` from `src/db.rs`. -/
inductive BucketStatus
  | green
  | yellow
  | red
  | gray
deriving DecidableEq, Repr

/-- `UptimeEvent` from `src/db.rs`: timestamp (nanoseconds) and success flag. -/
structure UptimeEvent where
  ts : Int
  success : Bool
deriving DecidableEq, Repr

/-- `NUM_BUCKETS` from `src/db.rs`. -/
def NUM_BUCKETS : Nat := 30

/-- The loop body of `compute_bucket_statuses` from `src/db.rs`: compute
the status of bucket `i` (0-indexed, oldest first). -/
def bucketStatusAt (events : List UptimeEvent) (range : TimeRange)
    (now : Int) (i : Nat) : BucketStatus :=
  let total_duration := range.as_duration
  let bucket_duration := total_duration / 30
  let bucket_start := now - total_duration + bucket_duration * (i : Int)
  let bucket_end := bucket_start + bucket_duration
  let bucket_events := events.filter
    (fun e => decide (bucket_start ≤ e.ts ∧ e.ts < bucket_end))
  if bucket_events.isEmpty then .gray
  else
    let successes := (bucket_events.filter (·.success)).length
    let total := bucket_events.length
    if successes = total then .green
    else if successes = 0 then .red
    else .yellow

/-- `compute_bucket_statuses` from `src/db.rs`: partition `[now − range,
now)` into 30 equal buckets, oldest first, and classify each bucket from
the events falling in it. -/
def compute_bucket_statuses (events : List UptimeEvent) (range : TimeRange)
    (now : Int) : List BucketStatus :=
  (List.range NUM_BUCKETS).map (bucketStatusAt events range now)

theorem length_map_range (f : Nat → α) (n : Nat) :
    ((List.range n).map f).length = n := by
  simp only [List.length_map, List.length_range]

theorem getD_map_range (f : Nat → α) (n i : Nat) (d : α) (h : i < n) :
    ((List.range n).map f).getD i d = f i := by
  rw [List.getD_eq_getElem _ _ (by simpa using h)]
  simp [h]

/-- The bucket width divides every supported range exactly (`chrono`
duration division is exact division here). -/
theorem bucket_duration_exact (range : TimeRange) :
    30 * (range.as_duration / 30) = range.as_duration := by
  cases range <;> decide

/-- The events of the claim's bucket-`i` window, `[now − R + i·Δ,
now − R + (i+1)·Δ)` with `Δ = R/30`. -/
def bucketWindowEvents (events : List UptimeEvent) (range : TimeRange)
    (now : Int) (i : Nat) : List UptimeEvent :=
  let Δ := range.as_duration / 30
  events.filter (fun e => decide
    (now - range.as_duration + Δ * (i : Int) ≤ e.ts ∧
     e.ts < now - range.as_duration + Δ * ((i : Int) + 1)))

/-- C5: for every event list, supported range and clock value, the bucket
computation returns exactly 30 statuses; bucket `i` (0-indexed, oldest
first) is classified from the events with timestamp in `[now − R + i·Δ,
now − R + (i+1)·Δ)` where `Δ = R/30`: with `k` events of which `s`
succeeded, it is green iff `s = k > 0`, red iff `s = 0 < k`, yellow iff
`0 < s < k`, and gray iff `k = 0`. -/
theorem bucket_computation_correct (events : List UptimeEvent)
    (range : TimeRange) (now : Int) :
    (compute_bucket_statuses events range now).length = 30 ∧
    (∀ i, i < 30 →
      let out := (compute_bucket_statuses events range now).getD i .gray
      let k := (bucketWindowEvents events range now i).length
      let s := ((bucketWindowEvents events range now i).filter (·.success)).length
      (out = .green ↔ (s = k ∧ 0 < k)) ∧
      (out = .red ↔ (s = 0 ∧ 0 < k)) ∧
      (out = .yellow ↔ (0 < s ∧ s < k)) ∧
      (out = .gray ↔ k = 0)) := by
  have hlen : (compute_bucket_statuses events range now).length = 30 := by
    exact length_map_range _ NUM_BUCKETS
  refine ⟨hlen, ?_⟩
  intro i hi
  have heq : now - range.as_duration + range.as_duration / 30 * (i : Int) +
      range.as_duration / 30 =
      now - range.as_duration + range.as_duration / 30 * ((i : Int) + 1) := by
    ring
  have hout : (compute_bucket_statuses events range now).getD i .gray =
      (if (bucketWindowEvents events range now i).isEmpty then BucketStatus.gray
       else if ((bucketWindowEvents events range now i).filter (·.success)).length
           = (bucketWindowEvents events range now i).length then .green
       else if ((bucketWindowEvents events range now i).filter
           (·.success)).length = 0 then .red
       else .yellow) := by
    rw [compute_bucket_statuses, getD_map_range _ NUM_BUCKETS i _ hi]
    simp only [bucketStatusAt, bucketWindowEvents]
    rw [heq]
  rw [hout]
  set win := bucketWindowEvents events range now i with hwdef
  set s := (win.filter (·.success)).length with hsdef
  set k := win.length with hkdef
  have hsk : s ≤ k := by
    rw [hsdef, hkdef]
    exact List.length_filter_le _ _
  have hie : (win.isEmpty = true) ↔ k = 0 := by
    rw [hkdef]
    cases win <;> simp
  by_cases hk0 : k = 0
  · have hε : win.isEmpty = true := hie.2 hk0
    have hs0 : s = 0 := by omega
    rw [if_pos hε]
    refine ⟨?_, ?_, ?_, ?_⟩ <;> constructor <;> intro h
    · exact absurd h (by decide)
    · omega
    · exact absurd h (by decide)
    · omega
    · exact absurd h (by decide)
    · omega
    · exact hk0
    · rfl
  · have hε : ¬ (win.isEmpty = true) := fun h => hk0 (hie.1 h)
    have hkpos : 0 < k := Nat.pos_of_ne_zero hk0
    rw [if_neg hε]
    by_cases hall : s = k
    · rw [if_pos hall]
      refine ⟨?_, ?_, ?_, ?_⟩ <;> constructor <;> intro h
      · exact ⟨hall, hkpos⟩
      · rfl
      · exact absurd h (by decide)
      · exfalso; omega
      · exact absurd h (by decide)
      · exfalso; omega
      · exact absurd h (by decide)
      · exact absurd h hk0
    · rw [if_neg hall]
      by_cases hz : s = 0
      · rw [if_pos hz]
        refine ⟨?_, ?_, ?_, ?_⟩ <;> constructor <;> intro h
        · exact absurd h (by decide)
        · exfalso; omega
        · exact ⟨hz, hkpos⟩
        · rfl
        · exact absurd h (by decide)
        · exfalso; omega
        · exact absurd h (by decide)
        · exact absurd h hk0
      · rw [if_neg hz]
        refine ⟨?_, ?_, ?_, ?_⟩ <;> constructor <;> intro h
        · exact absurd h (by decide)
        · exfalso; omega
        · exact absurd h (by decide)
        · exfalso; omega
        · exact ⟨Nat.pos_of_ne_zero hz, by omega⟩
        · rfl
        · exact absurd h (by decide)
        · exact absurd h hk0

/-- Witness for C5 at a concrete input: one successful event 59 minutes
old in a 1-hour range lands in bucket 0, which is green. -/
theorem bucket_computation_correct_witness :
    ((compute_bucket_statuses
        [⟨-(59 * 60 * 1000000000 : Int), true⟩] .hour1 0).length = 30) ∧
    ((compute_bucket_statuses
        [⟨-(59 * 60 * 1000000000 : Int), true⟩] .hour1 0).getD 0 .gray =
      .green ↔
      ((((bucketWindowEvents [⟨-(59 * 60 * 1000000000 : Int), true⟩]
            .hour1 0 0).filter (·.success)).length =
        (bucketWindowEvents [⟨-(59 * 60 * 1000000000 : Int), true⟩]
            .hour1 0 0).length) ∧
       0 < (bucketWindowEvents [⟨-(59 * 60 * 1000000000 : Int), true⟩]
            .hour1 0 0).length)) := by
  have h := bucket_computation_correct
    [⟨-(59 * 60 * 1000000000 : Int), true⟩] .hour1 0
  exact ⟨h.1, (h.2 0 (by decide)).1⟩

/-! ## Deterministic endpoint identifiers (`endpoint_id_from_name`, `src/db.rs`)

`endpoint_id_from_name` hashes the endpoint name twice with
`std::collections::hash_map::DefaultHasher` (SipHash-1-3 with a fixed
all-zero key), the second time preceded by the fixed domain-separation
string `"uptime-forge"`, combines the two 64-bit results into a 128-bit
value and renders it as a 26-character Crockford base-32 ULID string.
The hasher and the ULID encoding are byte-precise models of those
libraries: Rust's `str::hash` feeds the UTF-8 bytes followed by a
`0xff` terminator byte into the streaming hasher. -/

/-- Truncation to 64 bits (`u64` wrapping arithmetic). -/
def wrap64 (n : Nat) : Nat := n % 18446744073709551616

/-- 64-bit left rotation (`u64::rotate_left`), for `x < 2^64`, `0 < r < 64`. -/
def rotl64 (x r : Nat) : Nat := wrap64 ((x <<< r) ||| (x >>> (64 - r)))

/-- The SipHash internal state. -/
structure SipState where
  v0 : Nat
  v1 : Nat
  v2 : Nat
  v3 : Nat
deriving Repr

/-- One SipHash round (`SIPROUND`). -/
def sipRound (s : SipState) : SipState :=
  let v0 := wrap64 (s.v0 + s.v1)
  let v1 := rotl64 s.v1 13
  let v1 := v1 ^^^ v0
  let v0 := rotl64 v0 32
  let v2 := wrap64 (s.v2 + s.v3)
  let v3 := rotl64 s.v3 16
  let v3 := v3 ^^^ v2
  let v0 := wrap64 (v0 + v3)
  let v3 := rotl64 v3 21
  let v3 := v3 ^^^ v0
  let v2 := wrap64 (v2 + v1)
  let v1 := rotl64 v1 17
  let v1 := v1 ^^^ v2
  let v2 := rotl64 v2 32
  ⟨v0, v1, v2, v3⟩

/-- Little-endian value of a byte list. -/
def le64 (bytes : List Nat) : Nat :=
  bytes.foldr (fun b acc => b + 256 * acc) 0

/-- Split a byte stream into full 8-byte words (as 64-bit values,
little-endian) and the remaining tail bytes. -/
def sipWords : List Nat → List Nat × List Nat
  | b0 :: b1 :: b2 :: b3 :: b4 :: b5 :: b6 :: b7 :: rest =>
    let ws := sipWords rest
    (le64 [b0, b1, b2, b3, b4, b5, b6, b7] :: ws.1, ws.2)
  | rest => ([], rest)

/-- Feed one 64-bit message word into the state: `v3 ^= m`, one round
(SipHash-1-3 has one compression round), `v0 ^= m`. -/
def sipCompress (s : SipState) (m : Nat) : SipState :=
  let s := { s with v3 := s.v3 ^^^ m }
  let s := sipRound s
  { s with v0 := s.v0 ^^^ m }

/-- SipHash-1-3 with the all-zero key, as used by Rust's
`DefaultHasher`: one compression round per word, three finalization
rounds, finalization constant `0xff`. -/
def siphash13 (msg : List Nat) : Nat :=
  let s0 : SipState :=
    ⟨0x736f6d6570736575, 0x646f72616e646f6d, 0x6c7967656e657261, 0x7465646279746573⟩
  let split := sipWords msg
  let s := split.1.foldl sipCompress s0
  let b := ((msg.length % 256) <<< 56) ||| le64 split.2
  let s := sipCompress s b
  let s := { s with v2 := s.v2 ^^^ 0xff }
  let s := sipRound (sipRound (sipRound s))
  ((s.v0 ^^^ s.v1) ^^^ s.v2) ^^^ s.v3

/-- UTF-8 encoding of one scalar value. -/
def utf8Bytes (c : Char) : List Nat :=
  let n := c.toNat
  if n < 0x80 then [n]
  else if n < 0x800 then
    [0xC0 ||| (n >>> 6), 0x80 ||| (n &&& 0x3F)]
  else if n < 0x10000 then
    [0xE0 ||| (n >>> 12), 0x80 ||| ((n >>> 6) &&& 0x3F), 0x80 ||| (n &&& 0x3F)]
  else
    [0xF0 ||| (n >>> 18), 0x80 ||| ((n >>> 12) &&& 0x3F),
     0x80 ||| ((n >>> 6) &&& 0x3F), 0x80 ||| (n &&& 0x3F)]

/-- The UTF-8 bytes of a string (what `str::as_bytes` yields). -/
def strBytes (s : String) : List Nat :=
  (s.data.map utf8Bytes).flatten

/-- What Rust's `<str as Hash>::hash` feeds to the hasher: the UTF-8
bytes followed by the `0xff` terminator byte. -/
def strHashInput (s : String) : List Nat :=
  strBytes s ++ [0xff]

/-- The first hash of `endpoint_id_from_name`: `DefaultHasher` over the
name alone. -/
def hashOne (name : String) : Nat :=
  siphash13 (strHashInput name)

/-- The second hash of `endpoint_id_from_name`: `DefaultHasher` fed
`"uptime-forge"` and then the name. -/
def hashTwo (name : String) : Nat :=
  siphash13 (strHashInput "uptime-forge" ++ strHashInput name)

/-- The 128-bit combination `(u128::from(hash1) << 64) | u128::from(hash2)`. -/
def combinedId (name : String) : Nat :=
  (hashOne name <<< 64) ||| hashTwo name

/-- The Crockford base-32 alphabet used by the `ulid` crate. -/
def crockfordAlphabet : List Char :=
  "0123456789ABCDEFGHJKMNPQRSTVWXYZ".data

/-- The base-32 digits of `v`, least significant first, `k` digits. -/
def base32Digits : Nat → Nat → List Nat
  | 0, _ => []
  | k + 1, v => (v % 32) :: base32Digits k (v / 32)

/-- `Ulid::to_string`: the 26-character Crockford base-32 rendering of a
128-bit value, most significant digit first. -/
def ulidToString (v : Nat) : String :=
  String.mk (((base32Digits 26 v).reverse).map
    (fun d => crockfordAlphabet.getD d '0'))

/-- `endpoint_id_from_name` from `src/db.rs`. -/
def endpoint_id_from_name (name : String) : String :=
  ulidToString (combinedId name)

theorem base32Digits_length (k : Nat) : ∀ v, (base32Digits k v).length = k := by
  induction k with
  | zero => intro v; rfl
  | succ n ih => intro v; simp [base32Digits, ih]

theorem base32Digits_lt (k : Nat) :
    ∀ v, ∀ d ∈ base32Digits k v, d < 32 := by
  induction k with
  | zero => intro v d hd; simp [base32Digits] at hd
  | succ n ih =>
    intro v d hd
    simp only [base32Digits, List.mem_cons] at hd
    rcases hd with h | h
    · subst h; exact Nat.mod_lt _ (by omega)
    · exact ih _ d h

/-- Value of a digit list, least significant first. -/
def ofBase32Digits : List Nat → Nat
  | [] => 0
  | d :: ds => d + 32 * ofBase32Digits ds

theorem ofBase32Digits_base32Digits (k : Nat) :
    ∀ v, ofBase32Digits (base32Digits k v) = v % 32 ^ k := by
  induction k with
  | zero => intro v; simp [base32Digits, ofBase32Digits, Nat.mod_one]
  | succ n ih =>
    intro v
    have h : (32 : Nat) ^ (n + 1) = 32 * 32 ^ n := by ring
    rw [h, Nat.mod_mul]
    simp [base32Digits, ofBase32Digits, ih]

theorem base32Digits_injOn (k : Nat) (v₁ v₂ : Nat)
    (h1 : v₁ < 32 ^ k) (h2 : v₂ < 32 ^ k)
    (h : base32Digits k v₁ = base32Digits k v₂) : v₁ = v₂ := by
  have e1 := ofBase32Digits_base32Digits k v₁
  have e2 := ofBase32Digits_base32Digits k v₂
  rw [h] at e1
  rw [Nat.mod_eq_of_lt h1] at e1
  rw [Nat.mod_eq_of_lt h2] at e2
  omega

theorem crockChar_injOn_aux : ∀ d₁, d₁ < 32 → ∀ d₂, d₂ < 32 →
    (crockfordAlphabet.getD d₁ '0' = crockfordAlphabet.getD d₂ '0' → d₁ = d₂) := by
  decide

theorem crockChar_injOn (d₁ d₂ : Nat) (h1 : d₁ < 32) (h2 : d₂ < 32)
    (h : crockfordAlphabet.getD d₁ '0' = crockfordAlphabet.getD d₂ '0') :
    d₁ = d₂ :=
  crockChar_injOn_aux d₁ h1 d₂ h2 h

theorem map_crockChar_injOn :
    ∀ (l₁ l₂ : List Nat), (∀ d ∈ l₁, d < 32) → (∀ d ∈ l₂, d < 32) →
    l₁.map (fun d => crockfordAlphabet.getD d '0') =
      l₂.map (fun d => crockfordAlphabet.getD d '0') → l₁ = l₂ := by
  intro l₁
  induction l₁ with
  | nil => intro l₂ _ _ h; cases l₂ <;> simp_all
  | cons d ds ih =>
    intro l₂ hb1 hb2 h
    cases l₂ with
    | nil => simp at h
    | cons e es =>
      simp only [List.map_cons, List.cons.injEq] at h
      have hde : d = e := crockChar_injOn d e
        (hb1 d (by simp)) (hb2 e (by simp)) h.1
      have hrest : ds = es := ih es
        (fun x hx => hb1 x (by simp [hx]))
        (fun x hx => hb2 x (by simp [hx])) h.2
      rw [hde, hrest]

theorem ulidToString_injOn (v₁ v₂ : Nat)
    (h1 : v₁ < 2 ^ 130) (h2 : v₂ < 2 ^ 130)
    (h : ulidToString v₁ = ulidToString v₂) : v₁ = v₂ := by
  have hd : ((base32Digits 26 v₁).reverse).map
        (fun d => crockfordAlphabet.getD d '0') =
      ((base32Digits 26 v₂).reverse).map
        (fun d => crockfordAlphabet.getD d '0') := by
    have := congrArg String.data h
    simpa [ulidToString] using this
  have hrev : (base32Digits 26 v₁).reverse = (base32Digits 26 v₂).reverse :=
    map_crockChar_injOn _ _
      (fun d hdm => base32Digits_lt 26 v₁ d (by simpa using hdm))
      (fun d hdm => base32Digits_lt 26 v₂ d (by simpa using hdm)) hd
  have hdig : base32Digits 26 v₁ = base32Digits 26 v₂ :=
    List.reverse_injective hrev
  have hpow : (32 : Nat) ^ 26 = 2 ^ 130 := by norm_num
  exact base32Digits_injOn 26 v₁ v₂ (hpow ▸ h1) (hpow ▸ h2) hdig

theorem wrap64_lt (n : Nat) : wrap64 n < 2 ^ 64 :=
  Nat.mod_lt _ (by norm_num [wrap64])

theorem rotl64_lt (x r : Nat) : rotl64 x r < 2 ^ 64 := by
  have := wrap64_lt ((x <<< r) ||| (x >>> (64 - r)))
  simpa [rotl64] using this

/-- All four state words stay below `2^64`. -/
def SipState.Bounded (s : SipState) : Prop :=
  s.v0 < 2 ^ 64 ∧ s.v1 < 2 ^ 64 ∧ s.v2 < 2 ^ 64 ∧ s.v3 < 2 ^ 64

/-- A SipHash round produces a bounded state whatever its input is:
every output word is a rotation, a wrapped sum, or an xor of such. -/
theorem sipRound_bounded (s : SipState) : (sipRound s).Bounded := by
  refine ⟨?_, ?_, ?_, ?_⟩ <;>
    simp only [sipRound] <;>
    first
      | exact rotl64_lt _ _
      | exact wrap64_lt _
      | exact Nat.xor_lt_two_pow (rotl64_lt _ _) (wrap64_lt _)

theorem siphash13_lt (msg : List Nat) : siphash13 msg < 2 ^ 64 := by
  simp only [siphash13]
  have key : ∀ s : SipState,
      (((sipRound s).v0 ^^^ (sipRound s).v1) ^^^ (sipRound s).v2) ^^^
        (sipRound s).v3 < 2 ^ 64 := by
    intro s
    obtain ⟨h0, h1, h2, h3⟩ := sipRound_bounded s
    exact Nat.xor_lt_two_pow (Nat.xor_lt_two_pow (Nat.xor_lt_two_pow h0 h1) h2) h3
  exact key _

theorem combinedId_eq (n : String) :
    combinedId n = 2 ^ 64 * hashOne n + hashTwo n := by
  rw [combinedId, Nat.shiftLeft_eq, Nat.mul_comm]
  exact (Nat.mul_add_lt_is_or (siphash13_lt _) _).symm

theorem combinedId_lt (n : String) : combinedId n < 2 ^ 128 := by
  rw [combinedId_eq]
  have h1 : hashOne n < 2 ^ 64 := siphash13_lt _
  have h2 : hashTwo n < 2 ^ 64 := siphash13_lt _
  calc 2 ^ 64 * hashOne n + hashTwo n
      < 2 ^ 64 * hashOne n + 2 ^ 64 := by omega
    _ = 2 ^ 64 * (hashOne n + 1) := by ring
    _ ≤ 2 ^ 64 * 2 ^ 64 := Nat.mul_le_mul_left _ (by omega)
    _ = 2 ^ 128 := by norm_num

/-- C7: `endpoint_id_from_name` is a pure function of the endpoint name
(so any two invocations on equal names agree); the result is a
26-character string over the Crockford base-32 alphabet; it is exactly
the base-32 rendering of the 128-bit value obtained by concatenating two
64-bit hashes of the name, the second one domain-separated by first
hashing the fixed constant `"uptime-forge"`; the rendering is injective
on 128-bit values, so distinct names collide only if the combined hash
values collide (and the two sample names of the repository's test suite
do get distinct identifiers). -/
theorem identifier_derivation_correct :
    (∀ n₁ n₂ : String, n₁ = n₂ →
      endpoint_id_from_name n₁ = endpoint_id_from_name n₂) ∧
    (∀ n : String, (endpoint_id_from_name n).length = 26) ∧
    (∀ n : String, ∀ c ∈ (endpoint_id_from_name n).data, c ∈ crockfordAlphabet) ∧
    (∀ n : String, hashOne n < 2 ^ 64 ∧ hashTwo n < 2 ^ 64 ∧
      combinedId n = 2 ^ 64 * hashOne n + hashTwo n ∧ combinedId n < 2 ^ 128 ∧
      endpoint_id_from_name n = ulidToString (combinedId n)) ∧
    (∀ n₁ n₂ : String, combinedId n₁ ≠ combinedId n₂ →
      endpoint_id_from_name n₁ ≠ endpoint_id_from_name n₂) ∧
    endpoint_id_from_name "endpoint-a" ≠ endpoint_id_from_name "endpoint-b" := by
  refine ⟨?_, ?_, ?_, ?_, ?_, ?_⟩
  · intro n₁ n₂ h
    rw [h]
  · intro n
    show ((base32Digits 26 (combinedId n)).reverse.map
      (fun d => crockfordAlphabet.getD d '0')).length = 26
    rw [List.length_map, List.length_reverse, base32Digits_length]
  · intro n c hc
    have hc' : c ∈ (base32Digits 26 (combinedId n)).reverse.map
        (fun d => crockfordAlphabet.getD d '0') := hc
    rcases List.mem_map.1 hc' with ⟨d, hd, hdc⟩
    have hd32 : d < 32 := base32Digits_lt 26 _ d (by simpa using hd)
    have hlen : d < crockfordAlphabet.length := by
      have : crockfordAlphabet.length = 32 := rfl
      omega
    rw [← hdc, List.getD_eq_getElem _ _ hlen]
    exact List.getElem_mem hlen
  · intro n
    exact ⟨siphash13_lt _, siphash13_lt _, combinedId_eq n, combinedId_lt n, rfl⟩
  · intro n₁ n₂ hne heq
    have h1 : combinedId n₁ < 2 ^ 130 :=
      lt_trans (combinedId_lt n₁) (by norm_num)
    have h2 : combinedId n₂ < 2 ^ 130 :=
      lt_trans (combinedId_lt n₂) (by norm_num)
    exact hne (ulidToString_injOn _ _ h1 h2 heq)
  · decide

/-- Witness for C7 at concrete names: equal names yield the same
identifier, and the two sample names have distinct combined hash values
and hence distinct identifiers. -/
theorem identifier_derivation_correct_witness :
    endpoint_id_from_name "endpoint-a" = endpoint_id_from_name "endpoint-a" ∧
    endpoint_id_from_name "endpoint-a" ≠ endpoint_id_from_name "endpoint-b" := by
  refine ⟨identifier_derivation_correct.1 "endpoint-a" "endpoint-a" rfl, ?_⟩
  exact identifier_derivation_correct.2.2.2.2.1 "endpoint-a" "endpoint-b"
    (by decide)

/-! ## Environment-variable substitution (`substitute_env_vars`, `src/config.rs`)

The source replaces every leftmost-first, non-overlapping occurrence of
the regex `\$\x7b([A-Z_][A-Z0-9_]*)\x7d` by the value of the named
environment variable (the empty string when unset).  Because a match
must begin with the literal `$` and the name class excludes both braces
and `$`, leftmost-first regex scanning is equivalent to the single
left-to-right scanner embedded here: at each `$`, try to parse
`\x7bNAME\x7d` with a maximal name run; on success emit the value and
continue after the match, otherwise emit the `$` and continue with the
next character.  The process environment is a parameter
`env : String → Option String`.  The scanner recurses on explicit fuel
(one unit per emitted character or match), so `fuel = input.length`
always suffices. -/

/-- The `\x7b` character. -/
def braceOpen : Char := Char.ofNat 123

/-- The `\x7d` character. -/
def braceClose : Char := Char.ofNat 125

/-- First character class of a variable name: `[A-Z_]`. -/
def isEnvNameStart (c : Char) : Bool := c.isUpper || c = '_'

/-- Later character class of a variable name: `[A-Z0-9_]`. -/
def isEnvNameChar (c : Char) : Bool := c.isUpper || c = '_' || c.isDigit

/-- After the maximal name run `run`, a match requires the very next
character to be the closing brace; `rest'` is the text after the run. -/
def afterNameRun (run : List Char) : List Char → Option (List Char × List Char)
  | e :: tail => if e = braceClose then some (run, tail) else none
  | [] => none

/-- Try to parse `\x7bNAME\x7d` at the position just after a `$`;
returns the name and the remaining characters after the closing brace. -/
def matchEnvVar : List Char → Option (List Char × List Char)
  | c :: rest =>
    if c = braceOpen then
      match rest with
      | d :: ds =>
        if isEnvNameStart d then
          afterNameRun ((d :: ds).takeWhile isEnvNameChar)
            ((d :: ds).dropWhile isEnvNameChar)
        else none
      | [] => none
    else none
  | [] => none

/-- The expansion of one variable: `std::env::var` result, or the empty
string (with a warning) when the variable is unset. -/
def envValue (env : String → Option String) (nm : String) : String :=
  (env nm).getD ""

/-- The substitution scanner (fuel-indexed; `fuel ≥ input.length` makes
it process the whole input). -/
def substAux (env : String → Option String) : Nat → List Char → List Char
  | 0, cs => cs
  | _ + 1, [] => []
  | fuel + 1, c :: rest =>
    if c = '$' then
      (matchEnvVar rest).elim (c :: substAux env fuel rest)
        (fun p => (envValue env (String.mk p.1)).data ++ substAux env fuel p.2)
    else c :: substAux env fuel rest

/-- `substitute_env_vars` from `src/config.rs`. -/
def substitute_env_vars (env : String → Option String) (input : String) : String :=
  String.mk (substAux env input.data.length input.data)

/-- A valid variable name: nonempty, `[A-Z_]` first, `[A-Z0-9_]` all. -/
def ValidEnvName : List Char → Prop
  | [] => False
  | d :: ds => isEnvNameStart d = true ∧ ∀ c ∈ d :: ds, isEnvNameChar c = true

theorem isEnvNameChar_of_start (c : Char) (h : isEnvNameStart c = true) :
    isEnvNameChar c = true := by
  simp only [isEnvNameStart, Bool.or_eq_true] at h
  simp only [isEnvNameChar, Bool.or_eq_true]
  tauto

theorem takeWhile_append_all (p : Char → Bool) :
    ∀ (l l' : List Char), (∀ c ∈ l, p c = true) →
    (l ++ l').takeWhile p = l ++ l'.takeWhile p := by
  intro l
  induction l with
  | nil => intro l' _; rfl
  | cons c cs ih =>
    intro l' h
    have hc : p c = true := h c (by simp)
    simp only [List.cons_append, List.takeWhile_cons, hc, if_true]
    rw [ih l' (fun x hx => h x (by simp [hx]))]

theorem dropWhile_append_all (p : Char → Bool) :
    ∀ (l l' : List Char), (∀ c ∈ l, p c = true) →
    (l ++ l').dropWhile p = l'.dropWhile p := by
  intro l
  induction l with
  | nil => intro l' _; rfl
  | cons c cs ih =>
    intro l' h
    have hc : p c = true := h c (by simp)
    simp only [List.cons_append, List.dropWhile_cons, hc, if_true]
    exact ih l' (fun x hx => h x (by simp [hx]))

theorem braceClose_not_name : isEnvNameChar braceClose = false := by decide

theorem dollar_not_name : isEnvNameChar '$' = false := by decide

theorem dollar_ne_braceOpen : ('$' : Char) ≠ braceOpen := by decide

theorem dollar_ne_braceClose : ('$' : Char) ≠ braceClose := by decide

theorem dropWhile_head_not (p : Char → Bool) (l : List Char) (e : Char)
    (t : List Char) (h : l.dropWhile p = e :: t) : p e = false := by
  have := List.head?_dropWhile_not p l
  rw [h] at this
  simpa using this

/-- Parsing a well-formed occurrence succeeds and stops exactly at the
closing brace. -/
theorem matchEnvVar_complete (nm s₂ : List Char) (h : ValidEnvName nm) :
    matchEnvVar (braceOpen :: (nm ++ braceClose :: s₂)) = some (nm, s₂) := by
  cases nm with
  | nil => exact absurd h (by simp [ValidEnvName])
  | cons d ds =>
    obtain ⟨hd, hall⟩ := h
    have htw : List.takeWhile isEnvNameChar (d :: (ds ++ braceClose :: s₂)) =
        d :: ds := by
      have h1 := takeWhile_append_all isEnvNameChar (d :: ds) (braceClose :: s₂) hall
      simp only [List.cons_append] at h1
      rw [h1]
      simp [List.takeWhile_cons, braceClose_not_name]
    have hdw : List.dropWhile isEnvNameChar (d :: (ds ++ braceClose :: s₂)) =
        braceClose :: s₂ := by
      have h1 := dropWhile_append_all isEnvNameChar (d :: ds) (braceClose :: s₂) hall
      simp only [List.cons_append] at h1
      rw [h1]
      simp [List.dropWhile_cons, braceClose_not_name]
    show matchEnvVar (braceOpen :: ((d :: ds) ++ braceClose :: s₂)) =
      some (d :: ds, s₂)
    simp only [matchEnvVar, if_pos rfl, List.cons_append, hd, if_true, htw, hdw]
    simp [afterNameRun]

/-- Structure of a successful parse: the input decomposes as the open
brace, the (valid, maximal) name, the close brace, and the tail. -/
theorem matchEnvVar_spec (cs nm tail : List Char)
    (h : matchEnvVar cs = some (nm, tail)) :
    cs = braceOpen :: (nm ++ braceClose :: tail) ∧ ValidEnvName nm := by
  cases cs with
  | nil => simp [matchEnvVar] at h
  | cons c rest =>
    by_cases hc : c = braceOpen
    · subst hc
      cases rest with
      | nil => simp [matchEnvVar] at h
      | cons d ds =>
        by_cases hd : isEnvNameStart d = true
        · simp only [matchEnvVar, if_pos rfl, hd, if_true] at h
          rcases hdw : (d :: ds).dropWhile isEnvNameChar with _ | ⟨e, t⟩
          · rw [hdw] at h
            simp [afterNameRun] at h
          · rw [hdw] at h
            by_cases he : e = braceClose
            · subst he
              replace h : some ((d :: ds).takeWhile isEnvNameChar, t) =
                  some (nm, tail) := by simpa [afterNameRun] using h
              have hpair := Option.some.inj h
              have hnm : (d :: ds).takeWhile isEnvNameChar = nm :=
                congrArg Prod.fst hpair
              have ht : t = tail := congrArg Prod.snd hpair
              subst hnm
              subst ht
              have hsplit := List.takeWhile_append_dropWhile
                (p := isEnvNameChar) (l := d :: ds)
              rw [hdw] at hsplit
              refine ⟨by rw [hsplit], ?_⟩
              have htw : (d :: ds).takeWhile isEnvNameChar =
                  d :: ds.takeWhile isEnvNameChar := by
                simp [List.takeWhile_cons, isEnvNameChar_of_start d hd]
              rw [htw]
              refine ⟨hd, ?_⟩
              intro x hx
              rw [← htw] at hx
              exact List.mem_takeWhile_imp hx
            · simp [afterNameRun, he] at h
        · simp [matchEnvVar, hd] at h
    · simp [matchEnvVar, hc] at h

/-- Appending anything after a successful parse leaves the parse intact
and lands the suffix in the tail. -/
theorem matchEnvVar_append_some (xs zs nm t : List Char)
    (h : matchEnvVar xs = some (nm, t)) :
    matchEnvVar (xs ++ zs) = some (nm, t ++ zs) := by
  obtain ⟨hshape, hvalid⟩ := matchEnvVar_spec xs nm t h
  subst hshape
  have hr : (braceOpen :: (nm ++ braceClose :: t)) ++ zs =
      braceOpen :: (nm ++ braceClose :: (t ++ zs)) := by simp
  rw [hr]
  exact matchEnvVar_complete nm (t ++ zs) hvalid

/-- A failed parse stays failed when the appended text begins with `$`:
no match can straddle the boundary, because a name never contains `$`
and a match never begins with it. -/
theorem matchEnvVar_append_dollar_none (xs ys : List Char)
    (h : matchEnvVar xs = none) :
    matchEnvVar (xs ++ '$' :: ys) = none := by
  cases xs with
  | nil =>
    simp only [List.nil_append, matchEnvVar, if_neg dollar_ne_braceOpen]
  | cons c rest =>
    by_cases hc : c = braceOpen
    · subst hc
      cases rest with
      | nil =>
        show matchEnvVar (braceOpen :: ('$' :: ys)) = none
        simp [matchEnvVar, isEnvNameStart, dollar_ne_braceOpen]
      | cons d ds =>
        by_cases hd : isEnvNameStart d = true
        · simp only [matchEnvVar, if_pos rfl, hd, if_true] at h
          show matchEnvVar (braceOpen :: ((d :: ds) ++ '$' :: ys)) = none
          have hsplit := List.takeWhile_append_dropWhile
            (p := isEnvNameChar) (l := d :: ds)
          have hallTw : ∀ x ∈ (d :: ds).takeWhile isEnvNameChar,
              isEnvNameChar x = true := fun x hx => List.mem_takeWhile_imp hx
          have hbad : ∃ e' t',
              List.dropWhile isEnvNameChar ((d :: ds) ++ '$' :: ys) = e' :: t' ∧
              e' ≠ braceClose := by
            rcases hdw : (d :: ds).dropWhile isEnvNameChar with _ | ⟨e, t⟩
            · -- the whole candidate is name characters; the run then hits `$`
              rw [hdw, List.append_nil] at hsplit
              refine ⟨'$', ys, ?_, dollar_ne_braceClose⟩
              conv_lhs => rw [← hsplit]
              rw [dropWhile_append_all _ _ _ hallTw]
              simp [List.dropWhile_cons, dollar_not_name]
            · rw [hdw] at h hsplit
              have hne : e ≠ braceClose := by
                intro he
                subst he
                simp [afterNameRun] at h
              have hef : isEnvNameChar e = false := dropWhile_head_not _ _ _ _ hdw
              refine ⟨e, t ++ '$' :: ys, ?_, hne⟩
              conv_lhs => rw [← hsplit]
              rw [List.append_assoc, dropWhile_append_all _ _ _ hallTw]
              simp [List.dropWhile_cons, hef]
          obtain ⟨e', t', hdw', hne'⟩ := hbad
          have hdw'' : List.dropWhile isEnvNameChar (d :: (ds ++ '$' :: ys)) =
              e' :: t' := by simpa using hdw'
          simp only [matchEnvVar, List.cons_append, if_pos rfl, hd, if_true, hdw'']
          simp [afterNameRun, hne']
        · show matchEnvVar (braceOpen :: ((d :: ds) ++ '$' :: ys)) = none
          simp [matchEnvVar, hd]
    · show matchEnvVar (c :: (rest ++ '$' :: ys)) = none
      simp [matchEnvVar, hc]

theorem substAux_step_dollar (env : String → Option String)
    (fuel : Nat) (rest : List Char) :
    substAux env (fuel + 1) ('$' :: rest) =
      (matchEnvVar rest).elim ('$' :: substAux env fuel rest)
        (fun p => (envValue env (String.mk p.1)).data ++ substAux env fuel p.2) := by
  simp [substAux]

theorem substAux_step_char (env : String → Option String)
    (fuel : Nat) (c : Char) (rest : List Char) (h : c ≠ '$') :
    substAux env (fuel + 1) (c :: rest) = c :: substAux env fuel rest := by
  simp [substAux, h]

/-- The scanner's output does not depend on the fuel, as long as the
fuel covers the input length. -/
theorem substAux_fuel_irrel (env : String → Option String) :
    ∀ (fuel₁ : Nat), ∀ (fuel₂ : Nat) (cs : List Char),
    cs.length ≤ fuel₁ → cs.length ≤ fuel₂ →
    substAux env fuel₁ cs = substAux env fuel₂ cs := by
  intro fuel₁
  induction fuel₁ with
  | zero =>
    intro fuel₂ cs h1 _
    have hnil : cs = [] := List.length_eq_zero.1 (by omega)
    subst hnil
    cases fuel₂ <;> rfl
  | succ n ih =>
    intro fuel₂ cs h1 h2
    cases cs with
    | nil => cases fuel₂ <;> rfl
    | cons c rest =>
      cases fuel₂ with
      | zero => simp at h2
      | succ m =>
        simp only [List.length_cons] at h1 h2
        by_cases hc : c = '$'
        · subst hc
          rw [substAux_step_dollar, substAux_step_dollar]
          rcases hm : matchEnvVar rest with _ | ⟨nm, tail⟩
          · simp only [Option.elim]
            rw [ih m rest (by omega) (by omega)]
          · obtain ⟨hshape, -⟩ := matchEnvVar_spec rest nm tail hm
            have hlen : tail.length + 2 ≤ rest.length := by
              rw [hshape]
              simp
            simp only [Option.elim]
            rw [ih m tail (by omega) (by omega)]
        · rw [substAux_step_char env n c rest hc,
            substAux_step_char env m c rest hc,
            ih m rest (by omega) (by omega)]

/-- Substituting a string containing a well-formed occurrence: the text
before it is substituted on its own (no match can straddle into the
occurrence), the occurrence becomes the variable's value, and the rest
is substituted recursively. -/
theorem substAux_append_var (env : String → Option String)
    (nm : List Char) (hnm : ValidEnvName nm) :
    ∀ (fuel : Nat) (s₁ s₂ : List Char),
    s₁.length + nm.length + s₂.length + 3 ≤ fuel →
    substAux env fuel (s₁ ++ '$' :: braceOpen :: (nm ++ braceClose :: s₂)) =
      substAux env s₁.length s₁ ++ (envValue env (String.mk nm)).data ++
        substAux env s₂.length s₂ := by
  intro fuel
  induction fuel with
  | zero => intro s₁ s₂ h; omega
  | succ f ih =>
    intro s₁ s₂ hfuel
    cases s₁ with
    | nil =>
      simp only [List.nil_append, List.length_nil] at hfuel ⊢
      rw [substAux_step_dollar, matchEnvVar_complete nm s₂ hnm]
      simp only [Option.elim]
      rw [substAux_fuel_irrel env f s₂.length s₂ (by omega) (by omega)]
      simp [substAux]
    | cons c cs₁ =>
      simp only [List.length_cons] at hfuel
      by_cases hc : c = '$'
      · subst hc
        simp only [List.cons_append]
        rcases hm : matchEnvVar cs₁ with _ | ⟨nmx, t⟩
        · have hnone := matchEnvVar_append_dollar_none cs₁
            (braceOpen :: (nm ++ braceClose :: s₂)) hm
          rw [substAux_step_dollar, hnone]
          simp only [Option.elim]
          rw [ih cs₁ s₂ (by omega)]
          rw [List.length_cons, substAux_step_dollar, hm]
          simp only [Option.elim]
          simp
        · have hsome := matchEnvVar_append_some cs₁
              ('$' :: braceOpen :: (nm ++ braceClose :: s₂)) nmx t hm
          rw [substAux_step_dollar, hsome]
          simp only [Option.elim]
          obtain ⟨hshape, hvx⟩ := matchEnvVar_spec cs₁ nmx t hm
          have hlen : t.length + 3 ≤ cs₁.length := by
            rw [hshape]
            cases nmx with
            | nil => exact absurd hvx (by simp [ValidEnvName])
            | cons a as => simp
          rw [ih t s₂ (by omega)]
          rw [List.length_cons, substAux_step_dollar, hm]
          simp only [Option.elim]
          rw [substAux_fuel_irrel env cs₁.length t.length t (by omega) (by omega)]
          simp
      · simp only [List.cons_append]
        rw [substAux_step_char env f c _ hc]
        rw [ih cs₁ s₂ (by omega)]
        rw [List.length_cons, substAux_step_char env cs₁.length c cs₁ hc]
        simp

/-- A valid variable name at the string level: `[A-Z_][A-Z0-9_]*`. -/
def ValidEnvNameStr (nm : String) : Prop := ValidEnvName nm.data

/-- C6: the substitution pass replaces each occurrence of a dollar sign
followed by a braced valid name (`[A-Z_][A-Z0-9_]*`) with the
environment's value for that name; an undefined name expands to the
empty string; and the concrete invalid forms `$VAR`, `$\x7b\x7d`,
`$\x7blowercase\x7d` and `$\x7b123\x7d` pass through unchanged under
every environment. -/
theorem env_substitution_correct :
    (∀ (env : String → Option String) (s₁ nm s₂ : String), ValidEnvNameStr nm →
      substitute_env_vars env (s₁ ++ "$\x7b" ++ nm ++ "\x7d" ++ s₂) =
        substitute_env_vars env s₁ ++ envValue env nm ++
          substitute_env_vars env s₂) ∧
    (∀ (env : String → Option String) (nm : String),
      env nm = none → envValue env nm = "") ∧
    (∀ env : String → Option String,
      substitute_env_vars env "$VAR $\x7b\x7d $\x7blowercase\x7d $\x7b123\x7d" =
        "$VAR $\x7b\x7d $\x7blowercase\x7d $\x7b123\x7d") := by
  refine ⟨?_, ?_, ?_⟩
  · intro env s₁ nm s₂ hnm
    have h1 : ("$\x7b" : String).data = ['$', braceOpen] := by decide
    have h2 : ("\x7d" : String).data = [braceClose] := by decide
    have hdata : (s₁ ++ "$\x7b" ++ nm ++ "\x7d" ++ s₂).data =
        s₁.data ++ '$' :: braceOpen :: (nm.data ++ braceClose :: s₂.data) := by
      simp [String.data_append, h1, h2]
      exact ⟨by decide, by decide⟩
    show String.mk (substAux env
        (s₁ ++ "$\x7b" ++ nm ++ "\x7d" ++ s₂).data.length
        (s₁ ++ "$\x7b" ++ nm ++ "\x7d" ++ s₂).data) = _
    rw [hdata]
    have hlen : s₁.data.length + nm.data.length + s₂.data.length + 3 ≤
        (s₁.data ++ '$' :: braceOpen :: (nm.data ++ braceClose :: s₂.data)).length := by
      simp [List.length_append]
      omega
    rw [substAux_append_var env nm.data hnm _ s₁.data s₂.data hlen]
    rfl
  · intro env nm h
    simp [envValue, h]
  · intro env
    rfl

/-- The environment used by the substitution witness: `HOST` is set to
`example.test`, everything else is unset. -/
def witnessEnv : String → Option String :=
  fun v => if v = "HOST" then some "example.test" else none

/-- Witness for C6 at a concrete input: substituting
`https://$\x7bHOST\x7d/health` with `HOST=example.test` resolves the
one occurrence, and the resolved string is `https://example.test/health`. -/
theorem env_substitution_correct_witness :
    substitute_env_vars witnessEnv "https://$\x7bHOST\x7d/health" =
      substitute_env_vars witnessEnv "https://" ++ envValue witnessEnv "HOST" ++
        substitute_env_vars witnessEnv "/health" ∧
    substitute_env_vars witnessEnv "https://$\x7bHOST\x7d/health" =
      "https://example.test/health" := by
  have h := env_substitution_correct.1 witnessEnv "https://" "HOST" "/health"
    ⟨by decide, by decide⟩
  exact ⟨h, by decide⟩

/-! ## Persisting an outcome (`insert_uptime_event`, `src/db.rs`)

`insert_uptime_event` binds one row of the `uptime_events` table from a
`CheckResult`.  The effectful parts (the SQL execution and `Utc::now()`)
are factored out: the row value itself is pure, with the timestamp as a
parameter.  `status_code` is widened by `i32::from(u16)`;
`latency_ms` is `i32::try_from(u64)` with `unwrap_or(i32::MAX)`. -/

/-- One row of `uptime_events` as bound by `insert_uptime_event`.
`i32` columns are modelled as `Int`. -/
structure UptimeEventRow where
  endpoint_id : String
  ts : Int
  status_code : Option Int
  success : Bool
  latency_ms : Option Int
  error_type : Option String
  error_message : Option String
deriving DecidableEq, Repr

/-- `i32::MAX`. -/
def i32MAX : Int := 2147483647

/-- The row bound by `insert_uptime_event` from `src/db.rs` (`now` is the
wall-clock timestamp `Utc::now()`). -/
def insert_uptime_event_row (now : Int) (result : CheckResult) : UptimeEventRow :=
  { endpoint_id := endpoint_id_from_name result.name
    ts := now
    status_code := result.status_code.map (fun (s : Nat) => (s : Int))
    success := result.is_up
    latency_ms := result.response_time_ms.map
      (fun (l : Nat) => if (l : Int) ≤ i32MAX then (l : Int) else i32MAX)
    error_type := result.error_type.map (fun t => t.as_str)
    error_message := result.error }

/-- C10: the persisted latency is the outcome's response time saturated
at `i32::MAX = 2^31 − 1`; the status code is widened losslessly from
16-bit to 32-bit; and the row is otherwise a faithful copy of the
outcome's success flag, error-kind string, error message, endpoint
identifier and timestamp. -/
theorem event_row_persistence_correct (now : Int) (r : CheckResult) :
    ((insert_uptime_event_row now r).latency_ms =
      r.response_time_ms.map (fun (l : Nat) => min (l : Int) (2 ^ 31 - 1))) ∧
    (∀ l, r.response_time_ms = some l → 2 ^ 31 ≤ l →
      (insert_uptime_event_row now r).latency_ms = some (2 ^ 31 - 1)) ∧
    ((insert_uptime_event_row now r).status_code =
      r.status_code.map (fun (s : Nat) => (s : Int))) ∧
    (∀ s, r.status_code = some s → s < 2 ^ 16 →
      (insert_uptime_event_row now r).status_code = some (s : Int) ∧
      (s : Int) < 2 ^ 31 ∧ ((s : Int)).toNat = s) ∧
    (insert_uptime_event_row now r).success = r.is_up ∧
    (insert_uptime_event_row now r).error_type =
      r.error_type.map (fun t => t.as_str) ∧
    (insert_uptime_event_row now r).error_message = r.error ∧
    (insert_uptime_event_row now r).endpoint_id =
      endpoint_id_from_name r.name ∧
    (insert_uptime_event_row now r).ts = now := by
  refine ⟨?_, ?_, rfl, ?_, rfl, rfl, rfl, rfl, rfl⟩
  · simp only [insert_uptime_event_row]
    cases r.response_time_ms with
    | none => rfl
    | some l =>
      simp only [Option.map_some', Option.some.injEq]
      have : i32MAX = 2 ^ 31 - 1 := by norm_num [i32MAX]
      rw [this]
      by_cases h : (l : Int) ≤ 2 ^ 31 - 1
      · rw [if_pos h, min_eq_left h]
      · rw [if_neg h, min_eq_right (by omega)]
  · intro l hl hbig
    simp only [insert_uptime_event_row, hl, Option.map_some', Option.some.injEq]
    have hni : ¬ ((l : Int) ≤ i32MAX) := by
      simp only [i32MAX]
      have : (2 ^ 31 : Int) ≤ (l : Int) := by exact_mod_cast hbig
      omega
    rw [if_neg hni]
    norm_num [i32MAX]
  · intro s hs hlt
    refine ⟨by simp [insert_uptime_event_row, hs], ?_, by simp⟩
    exact_mod_cast lt_trans hlt (by norm_num)

/-- Witness for C10 at a concrete outcome: a response time of `2^40` ms
is saturated to `2^31 − 1`, and a status code of 404 is widened
losslessly. -/
theorem event_row_persistence_correct_witness :
    (insert_uptime_event_row 0
      { name := "w", description := none, group := none, tags := [],
        addr := "a", check_type := .http, is_up := false,
        status_code := some 404, response_time_ms := some (2 ^ 40),
        error := some "boom", error_type := some .statusMismatch }).latency_ms =
      some (2 ^ 31 - 1) ∧
    (insert_uptime_event_row 0
      { name := "w", description := none, group := none, tags := [],
        addr := "a", check_type := .http, is_up := false,
        status_code := some 404, response_time_ms := some (2 ^ 40),
        error := some "boom", error_type := some .statusMismatch }).status_code =
      some 404 := by
  refine ⟨?_, ?_⟩
  · exact (event_row_persistence_correct 0 _).2.1 (2 ^ 40) rfl (by norm_num)
  · exact ((event_row_persistence_correct 0 _).2.2.2.1 404 rfl (by norm_num)).1

/-! ## Probe primitives (`check_http`, `check_tcp`, `check_dns`,
`src/checker.rs`)

Each primitive performs network I/O and then branches on its outcome.
The network is modelled as an oracle value per primitive (one
constructor per I/O outcome, carrying the elapsed milliseconds measured
by the source where the source measures them); the branch structure and
every field assignment mirror the source.  String-classification of
error messages (`contains("refused")` etc.) is computed from the
message, as in the source. -/

/-- Lowercase a string (`str::to_lowercase`, ASCII suffices here). -/
def lowerStr (s : String) : String := String.mk (s.data.map Char.toLower)

/-- Substring occurrence test (`str::contains`). -/
def subOccurs (needle : List Char) : List Char → Bool
  | [] => needle.isEmpty
  | c :: rest => needle.isPrefixOf (c :: rest) || subOccurs needle rest

/-- `haystack.contains(needle)`. -/
def strContainsSub (hay needle : String) : Bool := subOccurs needle.data hay.data

/-- Strip a URI scheme (`str::strip_prefix(..).unwrap_or(..)`);
character-level, which coincides with the source's byte-level strip for
the ASCII schemes used. -/
def stripScheme (scheme s : String) : String :=
  if scheme.data.isPrefixOf s.data then String.mk (s.data.drop scheme.data.length)
  else s

/-- The observable condition of a `reqwest` transport error, as consumed
by `classify_reqwest_error`. -/
structure HttpError where
  is_timeout : Bool
  is_connect : Bool
  msg : String
deriving DecidableEq, Repr

/-- `classify_reqwest_error` from `src/checker.rs`. -/
def classify_reqwest_error (e : HttpError) : ErrorType :=
  if e.is_timeout then .timeout
  else if e.is_connect then
    let error_str := lowerStr e.msg
    if strContainsSub error_str "dns" || strContainsSub error_str "resolve" then
      .dns
    else if strContainsSub error_str "tls" || strContainsSub error_str "ssl" ||
        strContainsSub error_str "certificate" then
      .tls
    else .connection
  else .unknown

/-- The network outcome of one HTTP probe attempt. -/
inductive HttpPhase
  | clientBuildErr (msg : String)
  | response (status : Nat) (elapsedMs : Nat)
  | sendErr (err : HttpError) (elapsedMs : Nat)
deriving DecidableEq, Repr

/-- `check_http` from `src/checker.rs` with its network outcome as an
oracle.  `resolvedAddr` is the address after placeholder resolution. -/
def check_http (name resolvedAddr : String) (e : Endpoint)
    (net : HttpPhase) : CheckResult :=
  let result := base_result name resolvedAddr e
  match net with
  | .clientBuildErr msg =>
    { result with
      error := some ("failed to build HTTP client: " ++ msg)
      error_type := some .clientBuild }
  | .response status elapsed =>
    let is_up := decide (status = e.expected_status)
    let result := { result with
      is_up := is_up
      status_code := some status
      response_time_ms := some elapsed }
    if is_up then result
    else
      { result with
        error := some ("expected status " ++ toString e.expected_status ++
          ", got " ++ toString status)
        error_type := some .statusMismatch }
  | .sendErr err elapsed =>
    { result with
      response_time_ms := some elapsed
      error := some err.msg
      error_type := some (classify_reqwest_error err) }

/-- The network outcome of one TCP probe attempt: address resolution may
fail or return nothing; otherwise the bounded connect succeeds (with the
zero-byte write result), fails, or times out. -/
inductive TcpPhase
  | resolveErr (msg : String)
  | resolveEmpty
  | connected (writeOk : Bool) (elapsedMs : Nat)
  | connectErr (msg : String) (elapsedMs : Nat)
  | timedOut (elapsedMs : Nat)
deriving DecidableEq, Repr

/-- `check_tcp` from `src/checker.rs` with its network outcome as an
oracle.  Note that the two resolution-failure early returns do not set
`response_time_ms`. -/
def check_tcp (name resolvedAddr : String) (e : Endpoint)
    (net : TcpPhase) : CheckResult :=
  let result := base_result name resolvedAddr e
  let addr := stripScheme "tcp://" resolvedAddr
  match net with
  | .resolveErr msg =>
    { result with
      error := some ("failed to resolve address: " ++ msg)
      error_type := some .dns }
  | .resolveEmpty =>
    { result with
      error := some ("no addresses found for '" ++ addr ++ "'")
      error_type := some .dns }
  | .connected writeOk elapsed =>
    if writeOk then
      { result with is_up := true, response_time_ms := some elapsed }
    else
      { result with
        response_time_ms := some elapsed
        error := some "connection established but write failed"
        error_type := some .connection }
  | .connectErr msg elapsed =>
    { result with
      response_time_ms := some elapsed
      error := some msg
      error_type := some (if strContainsSub (lowerStr msg) "refused" then
        ErrorType.tcpRefused else ErrorType.connection) }
  | .timedOut elapsed =>
    { result with
      response_time_ms := some elapsed
      error := some "connection timed out"
      error_type := some .timeout }

/-- The network outcome of one DNS probe attempt. -/
inductive DnsPhase
  | lookupOk (ips : List String) (elapsedMs : Nat)
  | lookupErr (msg : String) (elapsedMs : Nat)
  | timedOut (elapsedMs : Nat)
deriving DecidableEq, Repr

/-- `check_dns` from `src/checker.rs` with its network outcome as an
oracle. -/
def check_dns (name resolvedAddr : String) (e : Endpoint)
    (net : DnsPhase) : CheckResult :=
  let result := base_result name resolvedAddr e
  match net with
  | .lookupOk ips elapsed =>
    let result := { result with response_time_ms := some elapsed }
    if e.expected_records.isEmpty then
      if ips.isEmpty then
        { result with
          error := some "DNS resolution returned no records"
          error_type := some .dns }
      else { result with is_up := true }
    else
      let all_found := e.expected_records.all (fun exp => ips.contains exp)
      if all_found then { result with is_up := true }
      else
        { result with
          error := some ("expected records " ++ toString e.expected_records ++
            ", got " ++ toString ips)
          error_type := some .dnsMismatch }
  | .lookupErr msg elapsed =>
    { result with
      response_time_ms := some elapsed
      error := some msg
      error_type := some (if strContainsSub (lowerStr msg) "nxdomain" ||
          strContainsSub (lowerStr msg) "no such" then
        ErrorType.dnsNxdomain else ErrorType.dns) }
  | .timedOut elapsed =>
    { result with
      response_time_ms := some elapsed
      error := some "DNS lookup timed out"
      error_type := some .timeout }

/-- Counterexample to C8 as stated: the TCP probe's address-resolution
failure outcomes (both the resolver-error and the no-addresses cases)
carry no response time — `base_result` leaves it `None` and the two
early returns never set it — although the claim asserts it is present
there. -/
theorem response_time_claim_counterexample :
    (check_tcp "t" "203.0.113.1:80" witnessEndpoint
      (.resolveErr "resolver failure")).response_time_ms = none ∧
    (check_tcp "t" "203.0.113.1:80" witnessEndpoint
      .resolveEmpty).response_time_ms = none := by
  exact ⟨rfl, rfl⟩

/-- C8 (amended): every outcome produced by a probe primitive's *timed*
phase — any HTTP response or transport error, any TCP connect success,
failure or timeout, and any DNS lookup success, failure or timeout —
carries a present response time; the outcomes produced before the timer
starts measuring a network attempt, namely the HTTP client-build failure
and the TCP address-resolution failures, carry none. -/
theorem response_time_presence (name resolvedAddr : String) (e : Endpoint) :
    (∀ status elapsed,
      (check_http name resolvedAddr e (.response status elapsed)).response_time_ms =
        some elapsed) ∧
    (∀ err elapsed,
      (check_http name resolvedAddr e (.sendErr err elapsed)).response_time_ms =
        some elapsed) ∧
    (∀ msg,
      (check_http name resolvedAddr e (.clientBuildErr msg)).response_time_ms =
        none) ∧
    (∀ writeOk elapsed,
      (check_tcp name resolvedAddr e (.connected writeOk elapsed)).response_time_ms =
        some elapsed) ∧
    (∀ msg elapsed,
      (check_tcp name resolvedAddr e (.connectErr msg elapsed)).response_time_ms =
        some elapsed) ∧
    (∀ elapsed,
      (check_tcp name resolvedAddr e (.timedOut elapsed)).response_time_ms =
        some elapsed) ∧
    (∀ msg,
      (check_tcp name resolvedAddr e (.resolveErr msg)).response_time_ms = none) ∧
    ((check_tcp name resolvedAddr e .resolveEmpty).response_time_ms = none) ∧
    (∀ ips elapsed,
      (check_dns name resolvedAddr e (.lookupOk ips elapsed)).response_time_ms =
        some elapsed) ∧
    (∀ msg elapsed,
      (check_dns name resolvedAddr e (.lookupErr msg elapsed)).response_time_ms =
        some elapsed) ∧
    (∀ elapsed,
      (check_dns name resolvedAddr e (.timedOut elapsed)).response_time_ms =
        some elapsed) := by
  refine ⟨?_, ?_, ?_, ?_, ?_, ?_, ?_, rfl, ?_, ?_, ?_⟩
  · intro status elapsed
    simp only [check_http, base_result]
    split <;> rfl
  · intro err elapsed; rfl
  · intro msg; rfl
  · intro writeOk elapsed
    simp only [check_tcp, base_result]
    split <;> rfl
  · intro msg elapsed; rfl
  · intro elapsed; rfl
  · intro msg; rfl
  · intro ips elapsed
    simp only [check_dns, base_result]
    split <;> split <;> rfl
  · intro msg elapsed; rfl
  · intro elapsed; rfl

/-! ## Configuration validation (`Config::validate`, `src/config.rs`)

`validate` walks the endpoint map and collects errors and warnings.  The
HTTP arm parses the *resolved* address as a URL (the URL parser is an
oracle `urlParseErr`, `none` meaning the parse succeeds), while the TCP
and DNS arms inspect the *unresolved* `endpoint.addr`. -/

/-- `ValidationWarning` from `src/config.rs` (used for both errors and
warnings). -/
structure ValidationWarning where
  endpoint : String
  message : String
deriving DecidableEq, Repr

/-- The loop body of `Config::validate` for one endpoint. -/
def validateEndpoint (env : String → Option String)
    (urlParseErr : String → Option String)
    (name : String) (e : Endpoint) :
    List ValidationWarning × List ValidationWarning :=
  let errors₀ : List ValidationWarning :=
    if e.timeout ≥ e.interval then
      [⟨name, "timeout (" ++ toString e.timeout ++
        ") must be less than interval (" ++ toString e.interval ++ ")"⟩]
    else []
  let errors₁ : List ValidationWarning :=
    match e.check_type with
    | .http =>
      let resolved_addr := substitute_env_vars env e.addr
      match urlParseErr resolved_addr with
      | some msg => [⟨name, "invalid URL '" ++ resolved_addr ++ "': " ++ msg⟩]
      | none => []
    | .tcp =>
      let addr := stripScheme "tcp://" e.addr
      if addr.data.contains ':' then []
      else
        [⟨name, "TCP address '" ++ e.addr ++
          "' must include port (e.g., 'host:port')"⟩]
    | .dns =>
      let addr := stripScheme "dns://" e.addr
      if strContainsSub addr "://" then
        [⟨name, "DNS address '" ++ e.addr ++
          "' should be a hostname, not a URL"⟩]
      else []
  let warnings₀ : List ValidationWarning :=
    if e.interval < 10 then
      [⟨name, "interval (" ++ toString e.interval ++
        ") is very aggressive, consider >= 10 seconds"⟩]
    else []
  let warnings₁ : List ValidationWarning :=
    if e.retries > 0 ∧ e.retry_delay = 0 then
      [⟨name, "retries configured but retry_delay is 0"⟩]
    else []
  (errors₀ ++ errors₁, warnings₀ ++ warnings₁)

/-- `Config::validate` from `src/config.rs`: fold the per-endpoint
validation over the endpoint map, accumulating `(errors, warnings)`. -/
def validate (env : String → Option String)
    (urlParseErr : String → Option String)
    (endpoints : List (String × Endpoint)) :
    List ValidationWarning × List ValidationWarning :=
  endpoints.foldl (fun acc kv =>
    let r := validateEndpoint env urlParseErr kv.1 kv.2
    (acc.1 ++ r.1, acc.2 ++ r.2)) ([], [])

/-- A TCP endpoint whose configured address is exactly the placeholder
`$\x7bTCP_TARGET\x7d`. -/
def tcpPlaceholderEndpoint : Endpoint :=
  { addr := "$\x7bTCP_TARGET\x7d"
    check_type := .tcp
    description := none
    group := none
    tags := []
    interval := 60
    timeout := 10
    expected_status := 200
    skip_tls_verification := false
    method := .get
    headers := []
    body := none
    retries := 0
    retry_delay := 5
    alert_after_failures := 3
    alert_channels := []
    expected_records := [] }

/-- Counterexample to C9 as stated: validation does **not** pass
trivially for a TCP endpoint whose unresolved address is exactly the
placeholder — the `:` check runs on the unresolved address, which
contains no colon, so `validate` reports an error. -/
theorem tcp_placeholder_validation_counterexample :
    (validate (fun _ => none) (fun _ => none)
      [("tcp-check", tcpPlaceholderEndpoint)]).1 ≠ [] := by
  decide

/-- C9 (amended): for a TCP endpoint whose configured (unresolved)
address is exactly the placeholder `$\x7bTCP_TARGET\x7d`, validation
rejects the endpoint with exactly one error — the must-include-port
error — and no warnings, under every environment and URL parser,
because the colon check inspects the unresolved address. -/
theorem tcp_placeholder_validation_rejects (env : String → Option String)
    (urlParseErr : String → Option String) :
    (validate env urlParseErr [("tcp-check", tcpPlaceholderEndpoint)]).1 =
      [⟨"tcp-check",
        "TCP address '$\x7bTCP_TARGET\x7d' must include port (e.g., 'host:port')"⟩] ∧
    (validate env urlParseErr [("tcp-check", tcpPlaceholderEndpoint)]).2 = [] := by
  exact ⟨rfl, rfl⟩

/-! ## Supervisor and reconciliation (`apply_config_update`,
`spawn_background_tasks`, `src/checker.rs`)

The supervisor state is the configuration snapshot, the runner-handle
map (name → `CancellationToken`, tokens modelled as consecutively issued
`Nat` identifiers), the shared current-status map, and the fresh-token
supply.  A sweep is the concurrent probe of a set of endpoints whose
results are sorted by lowercase name (`check_all_endpoints`); the probes
themselves are an oracle `probe : String → Endpoint → CheckResult`.
`apply_config_update` and the reload-tick body return, besides the new
state, the list of cancelled token ids and the list of events handed to
the event sink. -/

/-- `str::to_lowercase`-keyed comparison used by the result sort. -/
def lowerNameLe (a b : CheckResult) : Prop :=
  lowerStr a.name ≤ lowerStr b.name

instance (a b : CheckResult) : Decidable (lowerNameLe a b) := by
  unfold lowerNameLe
  infer_instance

/-- Insert into a list sorted by lowercase name. -/
def insertSorted (r : CheckResult) : List CheckResult → List CheckResult
  | [] => [r]
  | x :: xs =>
    if lowerNameLe r x then r :: x :: xs else x :: insertSorted r xs

/-- The sort of `check_all_endpoints` (`sort_by` on the lowercase name;
an insertion sort realises the same reordering contract). -/
def sortByLowerName (l : List CheckResult) : List CheckResult :=
  l.foldr insertSorted []

theorem insertSorted_perm (r : CheckResult) (l : List CheckResult) :
    List.Perm (insertSorted r l) (r :: l) := by
  induction l with
  | nil => exact List.Perm.refl _
  | cons x xs ih =>
    simp only [insertSorted]
    by_cases h : lowerNameLe r x
    · rw [if_pos h]
    · rw [if_neg h]
      exact List.Perm.trans (List.Perm.cons x ih) (List.Perm.swap r x xs)

theorem sortByLowerName_perm (l : List CheckResult) :
    List.Perm (sortByLowerName l) l := by
  induction l with
  | nil => exact List.Perm.refl _
  | cons x xs ih =>
    simp only [sortByLowerName, List.foldr_cons]
    exact List.Perm.trans (insertSorted_perm _ _) (List.Perm.cons x ih)

/-- `check_all_endpoints` from `src/checker.rs`: probe every endpoint of
the map (concurrently in the source; the outcomes are a pure function of
the oracle) and sort the outcomes by lowercase name. -/
def check_all_endpoints (probe : String → Endpoint → CheckResult)
    (endpoints : List (String × Endpoint)) : List CheckResult :=
  sortByLowerName (endpoints.map (fun kv => probe kv.1 kv.2))

/-- Bulk insertion of sweep outcomes into the current-status map
(`results.insert(result.name.clone(), result)` per outcome). -/
def insertResults (m : List (String × CheckResult))
    (rs : List CheckResult) : List (String × CheckResult) :=
  rs.foldl (fun acc r => mapInsert acc r.name r) m

theorem mapGet?_cons (kv : String × α) (rest : List (String × α)) (k' : String) :
    mapGet? (kv :: rest) k' =
      if kv.1 = k' then some kv.2 else mapGet? rest k' := by
  by_cases h : kv.1 = k'
  · rw [if_pos h]
    simp [mapGet?, List.find?_cons_of_pos, h]
  · rw [if_neg h]
    simp only [mapGet?]
    rw [List.find?_cons_of_neg _ (by simpa using h)]

theorem mapGet?_insert_self (m : List (String × α)) (k : String) (v : α) :
    mapGet? (mapInsert m k v) k = some v := by
  rw [mapInsert, mapGet?_cons]
  exact if_pos rfl

theorem mapGet?_remove_ne (m : List (String × α)) (k k' : String)
    (h : k' ≠ k) : mapGet? (mapRemove m k) k' = mapGet? m k' := by
  induction m with
  | nil => rfl
  | cons kv rest ih =>
    simp only [mapRemove, List.filter_cons]
    by_cases hk : kv.1 = k
    · rw [if_neg (by simp [hk])]
      rw [show List.filter (fun kv => decide (kv.1 ≠ k)) rest = mapRemove rest k
        from rfl, ih]
      rw [mapGet?_cons, if_neg (fun he => h (he.symm.trans hk))]
    · rw [if_pos (by simp [hk])]
      rw [show List.filter (fun kv => decide (kv.1 ≠ k)) rest = mapRemove rest k
        from rfl]
      rw [mapGet?_cons, mapGet?_cons]
      by_cases hk' : kv.1 = k'
      · rw [if_pos hk', if_pos hk']
      · rw [if_neg hk', if_neg hk']
        exact ih

theorem mapGet?_insert_ne (m : List (String × α)) (k k' : String) (v : α)
    (h : k' ≠ k) : mapGet? (mapInsert m k v) k' = mapGet? m k' := by
  rw [mapInsert, mapGet?_cons, if_neg (fun he : k = k' => h he.symm)]
  exact mapGet?_remove_ne m k k' h

theorem insertResults_untouched (rs : List CheckResult) :
    ∀ (m : List (String × CheckResult)) (k : String),
    k ∉ rs.map (fun r => r.name) →
    mapGet? (insertResults m rs) k = mapGet? m k := by
  induction rs with
  | nil => intro m k _; rfl
  | cons r rest ih =>
    intro m k hk
    simp only [List.map_cons, List.mem_cons, not_or] at hk
    simp only [insertResults, List.foldl_cons]
    rw [show rest.foldl (fun acc r => mapInsert acc r.name r)
        (mapInsert m r.name r) = insertResults (mapInsert m r.name r) rest
      from rfl]
    rw [ih (mapInsert m r.name r) k hk.2]
    exact mapGet?_insert_ne m r.name k r hk.1

theorem insertResults_present (rs : List CheckResult)
    (hnodup : (rs.map (fun r => r.name)).Nodup) :
    ∀ (m : List (String × CheckResult)) (r : CheckResult), r ∈ rs →
    mapGet? (insertResults m rs) r.name = some r := by
  induction rs with
  | nil => intro m r hr; simp at hr
  | cons r₀ rest ih =>
    intro m r hr
    simp only [List.map_cons, List.nodup_cons] at hnodup
    rcases List.mem_cons.1 hr with h | h
    · subst h
      simp only [insertResults, List.foldl_cons]
      rw [show rest.foldl (fun acc r => mapInsert acc r.name r)
          (mapInsert m r.name r) = insertResults (mapInsert m r.name r) rest
        from rfl]
      rw [insertResults_untouched rest (mapInsert m r.name r) r.name hnodup.1]
      exact mapGet?_insert_self m r.name r
    · simp only [insertResults, List.foldl_cons]
      rw [show rest.foldl (fun acc r => mapInsert acc r.name r)
          (mapInsert m r₀.name r₀) = insertResults (mapInsert m r₀.name r₀) rest
        from rfl]
      exact ih hnodup.2 (mapInsert m r₀.name r₀) r h

theorem mem_keys_insertResults (rs : List CheckResult) :
    ∀ (m : List (String × CheckResult)) (k : String),
    k ∈ mapKeys (insertResults m rs) ↔
      (k ∈ mapKeys m ∨ k ∈ rs.map (fun r => r.name)) := by
  induction rs with
  | nil => intro m k; simp [insertResults]
  | cons r rest ih =>
    intro m k
    simp only [insertResults, List.foldl_cons, List.map_cons, List.mem_cons]
    rw [show rest.foldl (fun acc r => mapInsert acc r.name r)
        (mapInsert m r.name r) = insertResults (mapInsert m r.name r) rest
      from rfl]
    rw [ih]
    rw [mem_mapKeys_insert]
    tauto

theorem nodup_keys_insertResults (rs : List CheckResult) :
    ∀ (m : List (String × CheckResult)), (mapKeys m).Nodup →
    (mapKeys (insertResults m rs)).Nodup := by
  induction rs with
  | nil => intro m h; exact h
  | cons r rest ih =>
    intro m h
    exact ih _ (mapKeys_insert_nodup m r.name r h)

/-- Fold of plain removals (what the loops do to a map for a list of
names). -/
def removeAll (m : List (String × α)) (names : List String) :
    List (String × α) :=
  names.foldl (fun acc n => mapRemove acc n) m

theorem mem_keys_removeAll (names : List String) :
    ∀ (m : List (String × α)) (k : String),
    k ∈ mapKeys (removeAll m names) ↔ (k ∈ mapKeys m ∧ k ∉ names) := by
  induction names with
  | nil => intro m k; simp [removeAll]
  | cons n rest ih =>
    intro m k
    simp only [removeAll, List.foldl_cons]
    rw [show rest.foldl (fun acc n => mapRemove acc n) (mapRemove m n) =
        removeAll (mapRemove m n) rest from rfl]
    rw [ih, mem_mapKeys_remove]
    simp only [List.mem_cons]
    tauto

theorem nodup_keys_removeAll (names : List String) :
    ∀ (m : List (String × α)), (mapKeys m).Nodup →
    (mapKeys (removeAll m names)).Nodup := by
  induction names with
  | nil => intro m h; exact h
  | cons n rest ih =>
    intro m h
    exact ih _ (mapKeys_remove_nodup m n h)

/-- The supervisor-owned state: the configuration snapshot
(`current_endpoints`), the runner-handle map (`active_tasks`,
cancellation tokens as consecutive `Nat` ids), the shared current-status
map (`state`), and the fresh-token supply. -/
structure ReconState where
  current : List (String × Endpoint)
  tasks : List (String × Nat)
  results : List (String × CheckResult)
  nextToken : Nat
deriving Repr

/-- The removed-endpoints loop body of `apply_config_update`: cancel the
runner's token (recording it), drop the handle, purge the status entry. -/
def cancelRemovedStep
    (acc : List (String × Nat) × List (String × CheckResult) × List Nat)
    (name : String) :
    List (String × Nat) × List (String × CheckResult) × List Nat :=
  let cancelled := match mapGet? acc.1 name with
    | some tok => acc.2.2 ++ [tok]
    | none => acc.2.2
  (mapRemove acc.1 name, mapRemove acc.2.1 name, cancelled)

/-- The changed-endpoints loop body: cancel and drop the old handle,
purge the status entry, spawn a fresh runner (a fresh token) when the
name is present in the new configuration, and record its handle. -/
def restartChangedStep (new_endpoints : List (String × Endpoint))
    (acc : List (String × Nat) × List (String × CheckResult) × List Nat × Nat)
    (name : String) :
    List (String × Nat) × List (String × CheckResult) × List Nat × Nat :=
  let cancelled := match mapGet? acc.1 name with
    | some tok => acc.2.2.1 ++ [tok]
    | none => acc.2.2.1
  let tasks := mapRemove acc.1 name
  let results := mapRemove acc.2.1 name
  match mapGet? new_endpoints name with
  | some _ => (mapInsert tasks name acc.2.2.2, results, cancelled, acc.2.2.2 + 1)
  | none => (tasks, results, cancelled, acc.2.2.2)

/-- The added-endpoints loop body: spawn a runner (a fresh token) when
the name is present in the new configuration and record its handle. -/
def startAddedStep (new_endpoints : List (String × Endpoint))
    (acc : List (String × Nat) × Nat) (name : String) :
    List (String × Nat) × Nat :=
  match mapGet? new_endpoints name with
  | some _ => (mapInsert acc.1 name acc.2, acc.2 + 1)
  | none => acc

/-- `removed = names in old ∖ new` of `apply_config_update`. -/
def removedNames (current new_endpoints : List (String × Endpoint)) :
    List String :=
  (mapKeys current).filter (fun k => !(mapContains new_endpoints k))

/-- `added = names in new ∖ old` of `apply_config_update`. -/
def addedNames (current new_endpoints : List (String × Endpoint)) :
    List String :=
  (mapKeys new_endpoints).filter (fun k => !(mapContains current k))

/-- `changed` of `apply_config_update`: names present in both whose
descriptor value differs. -/
def changedNames (current new_endpoints : List (String × Endpoint)) :
    List String :=
  (new_endpoints.filter (fun kv =>
    match mapGet? current kv.1 with
    | some old => decide (old ≠ kv.2)
    | none => false)).map (fun kv => kv.1)

/-- `unchanged` of `apply_config_update`: names of the new configuration
that are neither added nor changed. -/
def unchangedNames (current new_endpoints : List (String × Endpoint)) :
    List String :=
  (mapKeys new_endpoints).filter (fun k =>
    !((addedNames current new_endpoints).contains k) &&
    !((changedNames current new_endpoints).contains k))

/-- State of `(tasks, results, cancelled)` after the removed loop. -/
def reconAfterRemoved (new_endpoints : List (String × Endpoint))
    (st : ReconState) :
    List (String × Nat) × List (String × CheckResult) × List Nat :=
  (removedNames st.current new_endpoints).foldl cancelRemovedStep
    (st.tasks, st.results, [])

/-- State of `(tasks, results, cancelled, nextToken)` after the changed
loop. -/
def reconAfterChanged (new_endpoints : List (String × Endpoint))
    (st : ReconState) :
    List (String × Nat) × List (String × CheckResult) × List Nat × Nat :=
  (changedNames st.current new_endpoints).foldl
    (restartChangedStep new_endpoints)
    ((reconAfterRemoved new_endpoints st).1,
     (reconAfterRemoved new_endpoints st).2.1,
     (reconAfterRemoved new_endpoints st).2.2, st.nextToken)

/-- State of `(tasks, nextToken)` after the added loop. -/
def reconAfterAdded (new_endpoints : List (String × Endpoint))
    (st : ReconState) : List (String × Nat) × Nat :=
  (addedNames st.current new_endpoints).foldl (startAddedStep new_endpoints)
    ((reconAfterChanged new_endpoints st).1,
     (reconAfterChanged new_endpoints st).2.2.2)

/-- `endpoints_to_check = added ∪ changed ∪ unchanged` filtered out of
the new configuration. -/
def endpointsToCheck (current new_endpoints : List (String × Endpoint)) :
    List (String × Endpoint) :=
  new_endpoints.filter (fun kv =>
    (addedNames current new_endpoints).contains kv.1 ||
    (changedNames current new_endpoints).contains kv.1 ||
    (unchangedNames current new_endpoints).contains kv.1)

/-- `apply_config_update` from `src/checker.rs`: compute the four-way
partition against the current snapshot, cancel/drop/purge the removed
names, restart the changed names, start the added names, release the
locks, re-sweep `added ∪ changed ∪ unchanged`, insert the sweep's
outcomes into the status map and append them to the event sink, and
replace the snapshot.  Returns the new state, the cancelled token ids,
and the appended events (the source skips an empty re-sweep, which
appends no events and inserts nothing — observably the same). -/
def apply_config_update (probe : String → Endpoint → CheckResult)
    (new_endpoints : List (String × Endpoint)) (st : ReconState) :
    ReconState × List Nat × List CheckResult :=
  let check_results := check_all_endpoints probe
    (endpointsToCheck st.current new_endpoints)
  ({ current := new_endpoints
     tasks := (reconAfterAdded new_endpoints st).1
     results := insertResults (reconAfterChanged new_endpoints st).2.1
       check_results
     nextToken := (reconAfterAdded new_endpoints st).2 },
   (reconAfterChanged new_endpoints st).2.2.1, check_results)

theorem mapGet?_isSome_of_mem (m : List (String × α)) (k : String)
    (h : k ∈ mapKeys m) : ∃ v, mapGet? m k = some v := by
  induction m with
  | nil => simp [mapKeys] at h
  | cons kv rest ih =>
    rw [mapGet?_cons]
    by_cases hk : kv.1 = k
    · exact ⟨kv.2, if_pos hk⟩
    · rw [if_neg hk]
      apply ih
      simp only [mapKeys, List.map_cons, List.mem_cons] at h
      rcases h with h | h
      · exact absurd h.symm hk
      · exact h

theorem mem_removedNames (current new_endpoints : List (String × Endpoint))
    (k : String) :
    k ∈ removedNames current new_endpoints ↔
      (k ∈ mapKeys current ∧ k ∉ mapKeys new_endpoints) := by
  simp only [removedNames, List.mem_filter, Bool.not_eq_true',
    ← Bool.not_eq_true (mapContains new_endpoints k)]
  rw [mapContains_iff]

theorem mem_addedNames (current new_endpoints : List (String × Endpoint))
    (k : String) :
    k ∈ addedNames current new_endpoints ↔
      (k ∈ mapKeys new_endpoints ∧ k ∉ mapKeys current) := by
  simp only [addedNames, List.mem_filter, Bool.not_eq_true',
    ← Bool.not_eq_true (mapContains current k)]
  rw [mapContains_iff]

theorem changedNames_subset (current new_endpoints : List (String × Endpoint))
    (k : String) (h : k ∈ changedNames current new_endpoints) :
    k ∈ mapKeys new_endpoints := by
  simp only [changedNames, List.mem_map, List.mem_filter] at h
  rcases h with ⟨kv, ⟨hm, -⟩, hk⟩
  subst hk
  exact List.mem_map_of_mem _ hm

theorem foldl_cancelRemoved_tasks (names : List String) :
    ∀ init : List (String × Nat) × List (String × CheckResult) × List Nat,
    (names.foldl cancelRemovedStep init).1 = removeAll init.1 names := by
  induction names with
  | nil => intro init; rfl
  | cons n rest ih =>
    intro init
    simp only [List.foldl_cons, removeAll]
    rw [ih (cancelRemovedStep init n)]
    rfl

theorem foldl_cancelRemoved_results (names : List String) :
    ∀ init : List (String × Nat) × List (String × CheckResult) × List Nat,
    (names.foldl cancelRemovedStep init).2.1 = removeAll init.2.1 names := by
  induction names with
  | nil => intro init; rfl
  | cons n rest ih =>
    intro init
    simp only [List.foldl_cons, removeAll]
    rw [ih (cancelRemovedStep init n)]
    rfl

theorem foldl_restartChanged_results (new_endpoints : List (String × Endpoint))
    (names : List String) :
    ∀ init : List (String × Nat) × List (String × CheckResult) × List Nat × Nat,
    (names.foldl (restartChangedStep new_endpoints) init).2.1 =
      removeAll init.2.1 names := by
  induction names with
  | nil => intro init; rfl
  | cons n rest ih =>
    intro init
    simp only [List.foldl_cons, removeAll]
    rw [ih (restartChangedStep new_endpoints init n)]
    have hres : (restartChangedStep new_endpoints init n).2.1 =
        mapRemove init.2.1 n := by
      rcases hg : mapGet? new_endpoints n with _ | e <;>
        simp [restartChangedStep, hg]
    rw [hres]
    rfl

theorem mem_keys_insert_remove (m : List (String × α)) (n k : String) (v : α) :
    k ∈ mapKeys (mapInsert (mapRemove m n) n v) ↔ (k = n ∨ k ∈ mapKeys m) := by
  rw [mem_mapKeys_insert, mem_mapKeys_remove]
  by_cases hk : k = n
  · simp [hk]
  · simp [hk]

theorem foldl_restartChanged_tasks_mem
    (new_endpoints : List (String × Endpoint)) (names : List String)
    (hsub : ∀ n ∈ names, n ∈ mapKeys new_endpoints) :
    ∀ (init : List (String × Nat) × List (String × CheckResult) × List Nat × Nat)
      (k : String),
    k ∈ mapKeys (names.foldl (restartChangedStep new_endpoints) init).1 ↔
      (k ∈ mapKeys init.1 ∨ k ∈ names) := by
  induction names with
  | nil => intro init k; simp
  | cons n rest ih =>
    intro init k
    simp only [List.foldl_cons]
    rw [ih (fun x hx => hsub x (by simp [hx]))
      (restartChangedStep new_endpoints init n) k]
    obtain ⟨e, he⟩ := mapGet?_isSome_of_mem new_endpoints n
      (hsub n (by simp))
    have htask : (restartChangedStep new_endpoints init n).1 =
        mapInsert (mapRemove init.1 n) n init.2.2.2 := by
      simp [restartChangedStep, he]
    rw [htask, mem_keys_insert_remove]
    simp only [List.mem_cons]
    tauto

theorem foldl_restartChanged_tasks_nodup
    (new_endpoints : List (String × Endpoint)) (names : List String) :
    ∀ init : List (String × Nat) × List (String × CheckResult) × List Nat × Nat,
    (mapKeys init.1).Nodup →
    (mapKeys (names.foldl (restartChangedStep new_endpoints) init).1).Nodup := by
  induction names with
  | nil => intro init h; exact h
  | cons n rest ih =>
    intro init h
    simp only [List.foldl_cons]
    apply ih
    rcases hg : mapGet? new_endpoints n with _ | e
    · simpa [restartChangedStep, hg] using mapKeys_remove_nodup init.1 n h
    · simpa [restartChangedStep, hg] using
        mapKeys_insert_nodup (mapRemove init.1 n) n init.2.2.2
          (mapKeys_remove_nodup init.1 n h)

theorem foldl_startAdded_tasks_mem
    (new_endpoints : List (String × Endpoint)) (names : List String)
    (hsub : ∀ n ∈ names, n ∈ mapKeys new_endpoints) :
    ∀ (init : List (String × Nat) × Nat) (k : String),
    k ∈ mapKeys (names.foldl (startAddedStep new_endpoints) init).1 ↔
      (k ∈ mapKeys init.1 ∨ k ∈ names) := by
  induction names with
  | nil => intro init k; simp
  | cons n rest ih =>
    intro init k
    simp only [List.foldl_cons]
    rw [ih (fun x hx => hsub x (by simp [hx])) (startAddedStep new_endpoints init n) k]
    obtain ⟨e, he⟩ := mapGet?_isSome_of_mem new_endpoints n (hsub n (by simp))
    have htask : (startAddedStep new_endpoints init n).1 =
        mapInsert init.1 n init.2 := by
      simp [startAddedStep, he]
    rw [htask, mem_mapKeys_insert]
    simp only [List.mem_cons]
    tauto

theorem foldl_startAdded_tasks_nodup
    (new_endpoints : List (String × Endpoint)) (names : List String) :
    ∀ init : List (String × Nat) × Nat, (mapKeys init.1).Nodup →
    (mapKeys (names.foldl (startAddedStep new_endpoints) init).1).Nodup := by
  induction names with
  | nil => intro init h; exact h
  | cons n rest ih =>
    intro init h
    simp only [List.foldl_cons]
    apply ih
    rcases hg : mapGet? new_endpoints n with _ | e
    · simpa [startAddedStep, hg] using h
    · simpa [startAddedStep, hg] using mapKeys_insert_nodup init.1 n init.2 h

theorem endpointsToCheck_subset (current new_endpoints : List (String × Endpoint))
    (k : String) (h : k ∈ mapKeys (endpointsToCheck current new_endpoints)) :
    k ∈ mapKeys new_endpoints := by
  simp only [endpointsToCheck, mapKeys, List.mem_map, List.mem_filter] at h
  rcases h with ⟨kv, ⟨hm, -⟩, hk⟩
  subst hk
  exact List.mem_map_of_mem _ hm

theorem check_all_names_perm (probe : String → Endpoint → CheckResult)
    (endpoints : List (String × Endpoint))
    (hprobe : ∀ k e, (probe k e).name = k) :
    List.Perm ((check_all_endpoints probe endpoints).map (fun r => r.name))
      (mapKeys endpoints) := by
  have h1 : List.Perm ((check_all_endpoints probe endpoints).map (fun r => r.name))
      ((endpoints.map (fun kv => probe kv.1 kv.2)).map (fun r => r.name)) :=
    (sortByLowerName_perm _).map _
  have h2 : (endpoints.map (fun kv => probe kv.1 kv.2)).map (fun r => r.name) =
      mapKeys endpoints := by
    rw [List.map_map]
    apply List.map_congr_left
    intro kv _
    exact hprobe kv.1 kv.2
  rw [h2] at h1
  exact h1

/-- `HashMap` value equality (`new_config.endpoints == *current`):
same keys with equal values, irrespective of representation order. -/
def mapEqv (a b : List (String × Endpoint)) : Bool :=
  a.all (fun kv => decide (mapGet? b kv.1 = some kv.2)) &&
  b.all (fun kv => decide (mapGet? a kv.1 = some kv.2))

/-- One iteration of the reload loop of `spawn_background_tasks` after
the timer or a manual trigger fired: re-parse the configuration
(`parse_result` is `none` on parse failure); on failure log and skip the
tick; when the parsed endpoints equal the snapshot, skip reconciliation
but re-sweep all endpoints; otherwise apply the configuration update. -/
def reload_tick (probe : String → Endpoint → CheckResult)
    (parse_result : Option (List (String × Endpoint))) (st : ReconState) :
    ReconState × List Nat × List CheckResult :=
  match parse_result with
  | none => (st, [], [])
  | some new_endpoints =>
    if mapEqv new_endpoints st.current then
      let check_results := check_all_endpoints probe new_endpoints
      let results' := insertResults st.results check_results
      ({ st with results := results' }, [], check_results)
    else
      apply_config_update probe new_endpoints st

/-- C1: after a reconciliation step applied to a new configuration,
starting from a runner-handle map whose keys are the old configuration's
endpoint names, the handle map has exactly one entry (unique keys,
membership iff) for every endpoint name of the new configuration and no
entry for any removed name, and every removed name is also purged from
the current-status map. -/
theorem reconciliation_single_runner (probe : String → Endpoint → CheckResult)
    (new_endpoints : List (String × Endpoint)) (st : ReconState)
    (hkeys : ∀ k, k ∈ mapKeys st.tasks ↔ k ∈ mapKeys st.current)
    (hnodupT : (mapKeys st.tasks).Nodup)
    (hprobe : ∀ k e, (probe k e).name = k) :
    (mapKeys (apply_config_update probe new_endpoints st).1.tasks).Nodup ∧
    (∀ k, k ∈ mapKeys (apply_config_update probe new_endpoints st).1.tasks ↔
      k ∈ mapKeys new_endpoints) ∧
    (∀ k, k ∈ mapKeys st.current → k ∉ mapKeys new_endpoints →
      k ∉ mapKeys (apply_config_update probe new_endpoints st).1.tasks ∧
      k ∉ mapKeys (apply_config_update probe new_endpoints st).1.results) := by
  have hsubA : ∀ n ∈ addedNames st.current new_endpoints,
      n ∈ mapKeys new_endpoints :=
    fun n hn => ((mem_addedNames _ _ n).1 hn).1
  have hsubC : ∀ n ∈ changedNames st.current new_endpoints,
      n ∈ mapKeys new_endpoints :=
    fun n hn => changedNames_subset _ _ n hn
  have hmemT : ∀ k,
      k ∈ mapKeys (reconAfterAdded new_endpoints st).1 ↔
      (((k ∈ mapKeys st.tasks ∧ k ∉ removedNames st.current new_endpoints) ∨
        k ∈ changedNames st.current new_endpoints) ∨
       k ∈ addedNames st.current new_endpoints) := by
    intro k
    unfold reconAfterAdded
    rw [foldl_startAdded_tasks_mem new_endpoints _ hsubA _ k]
    dsimp only
    unfold reconAfterChanged
    rw [foldl_restartChanged_tasks_mem new_endpoints _ hsubC _ k]
    dsimp only
    unfold reconAfterRemoved
    rw [foldl_cancelRemoved_tasks]
    dsimp only
    rw [mem_keys_removeAll]
  have htasks : (apply_config_update probe new_endpoints st).1.tasks =
      (reconAfterAdded new_endpoints st).1 := rfl
  have hresults : (apply_config_update probe new_endpoints st).1.results =
      insertResults (reconAfterChanged new_endpoints st).2.1
        (check_all_endpoints probe
          (endpointsToCheck st.current new_endpoints)) := rfl
  refine ⟨?_, ?_, ?_⟩
  · rw [htasks]
    unfold reconAfterAdded
    apply foldl_startAdded_tasks_nodup
    dsimp only
    unfold reconAfterChanged
    apply foldl_restartChanged_tasks_nodup
    dsimp only
    unfold reconAfterRemoved
    rw [foldl_cancelRemoved_tasks]
    exact nodup_keys_removeAll _ _ hnodupT
  · intro k
    rw [htasks, hmemT k]
    constructor
    · rintro ((⟨htk, hnr⟩ | hc) | ha)
      · have hcur := (hkeys k).1 htk
        by_contra hnew
        exact hnr ((mem_removedNames _ _ k).2 ⟨hcur, hnew⟩)
      · exact changedNames_subset _ _ k hc
      · exact ((mem_addedNames _ _ k).1 ha).1
    · intro hnew
      by_cases hcur : k ∈ mapKeys st.current
      · exact Or.inl (Or.inl ⟨(hkeys k).2 hcur,
          fun hr => ((mem_removedNames _ _ k).1 hr).2 hnew⟩)
      · exact Or.inr ((mem_addedNames _ _ k).2 ⟨hnew, hcur⟩)
  · intro k hcur hnew
    have hrem : k ∈ removedNames st.current new_endpoints :=
      (mem_removedNames _ _ k).2 ⟨hcur, hnew⟩
    constructor
    · rw [htasks, hmemT k]
      rintro ((⟨-, hnr⟩ | hc) | ha)
      · exact hnr hrem
      · exact hnew (changedNames_subset _ _ k hc)
      · exact hnew ((mem_addedNames _ _ k).1 ha).1
    · rw [hresults]
      intro hmem
      rcases (mem_keys_insertResults _ _ _).1 hmem with hbase | hev
      · have hb : (reconAfterChanged new_endpoints st).2.1 =
            removeAll (removeAll st.results
              (removedNames st.current new_endpoints))
              (changedNames st.current new_endpoints) := by
          unfold reconAfterChanged
          rw [foldl_restartChanged_results]
          dsimp only
          unfold reconAfterRemoved
          rw [foldl_cancelRemoved_results]
        rw [hb, mem_keys_removeAll, mem_keys_removeAll] at hbase
        exact hbase.1.2 hrem
      · have hperm := check_all_names_perm probe
          (endpointsToCheck st.current new_endpoints) hprobe
        have hk : k ∈ mapKeys (endpointsToCheck st.current new_endpoints) :=
          hperm.mem_iff.1 hev
        exact hnew (endpointsToCheck_subset _ _ k hk)

/-- The probe oracle used by the reconciliation witnesses: always up,
preserving the probed name as the source's `base_result` does. -/
def witnessSweepProbe : String → Endpoint → CheckResult := fun k e =>
  { name := k
    description := e.description
    group := e.group
    tags := e.tags
    addr := e.addr
    check_type := e.check_type
    is_up := true
    status_code := some 200
    response_time_ms := some 10
    error := none
    error_type := none }

/-- Supervisor state of the reconciliation witnesses: endpoints `a`, `b`
with live runners 0, 1. -/
def witnessStateOld : ReconState :=
  { current := [("a", witnessEndpoint), ("b", witnessEndpoint)]
    tasks := [("a", 0), ("b", 1)]
    results := []
    nextToken := 2 }

/-- New configuration of the reconciliation witness: `a` removed, `c`
added, `b` unchanged. -/
def witnessNewEndpoints : List (String × Endpoint) :=
  [("b", witnessEndpoint), ("c", witnessEndpoint)]

/-- Witness for C1 at a concrete reload from `{a, b}` to `{b, c}`: the
handle map holds exactly the new names, and the removed name `a` is gone
from both the handle map and the status map. -/
theorem reconciliation_single_runner_witness :
    (∀ k, k ∈ mapKeys (apply_config_update witnessSweepProbe
        witnessNewEndpoints witnessStateOld).1.tasks ↔
      k ∈ mapKeys witnessNewEndpoints) ∧
    ("a" ∉ mapKeys (apply_config_update witnessSweepProbe
        witnessNewEndpoints witnessStateOld).1.tasks ∧
     "a" ∉ mapKeys (apply_config_update witnessSweepProbe
        witnessNewEndpoints witnessStateOld).1.results) := by
  have h := reconciliation_single_runner witnessSweepProbe
    witnessNewEndpoints witnessStateOld
    (fun k => Iff.rfl) (by decide) (fun k e => rfl)
  exact ⟨h.2.1, h.2.2 "a" (by decide) (by decide)⟩

theorem count_of_nodup (l : List String) (h : l.Nodup) (k : String) :
    l.count k = if k ∈ l then 1 else 0 := by
  by_cases hm : k ∈ l
  · rw [if_pos hm]
    exact List.count_eq_one_of_mem h hm
  · rw [if_neg hm]
    exact List.count_eq_zero_of_not_mem hm

/-- C2: a reload tick whose re-parsed configuration is value-equal to
the current snapshot skips reconciliation — the handle map, the
snapshot and the token supply are untouched and nothing is cancelled —
and re-sweeps every endpoint exactly once, appending each outcome to the
event sink and inserting it into the current-status map. -/
theorem reconciliation_idempotent (probe : String → Endpoint → CheckResult)
    (cfg : List (String × Endpoint)) (st : ReconState)
    (heq : mapEqv cfg st.current = true)
    (hnodup : (mapKeys cfg).Nodup)
    (hprobe : ∀ k e, (probe k e).name = k) :
    (reload_tick probe (some cfg) st).1.tasks = st.tasks ∧
    (reload_tick probe (some cfg) st).1.current = st.current ∧
    (reload_tick probe (some cfg) st).1.nextToken = st.nextToken ∧
    (reload_tick probe (some cfg) st).2.1 = [] ∧
    (reload_tick probe (some cfg) st).2.2 = check_all_endpoints probe cfg ∧
    (∀ k, ((reload_tick probe (some cfg) st).2.2.map (fun r => r.name)).count k =
      if k ∈ mapKeys cfg then 1 else 0) ∧
    (∀ r ∈ (reload_tick probe (some cfg) st).2.2,
      mapGet? (reload_tick probe (some cfg) st).1.results r.name = some r) := by
  have hout : reload_tick probe (some cfg) st =
      ({ st with
          results := insertResults st.results (check_all_endpoints probe cfg) },
       [], check_all_endpoints probe cfg) := by
    simp only [reload_tick]
    rw [if_pos heq]
  rw [hout]
  have hperm := check_all_names_perm probe cfg hprobe
  have hnn : ((check_all_endpoints probe cfg).map (fun r => r.name)).Nodup :=
    hperm.nodup_iff.2 hnodup
  refine ⟨rfl, rfl, rfl, rfl, rfl, ?_, ?_⟩
  · intro k
    rw [hperm.count_eq k]
    exact count_of_nodup _ hnodup k
  · intro r hr
    exact insertResults_present _ hnn st.results r hr

/-- Supervisor state of the idempotence witness: one endpoint `a` with a
live runner. -/
def witnessStateEq : ReconState :=
  { current := [("a", witnessEndpoint)]
    tasks := [("a", 0)]
    results := []
    nextToken := 1 }

/-- Witness for C2 at a concrete state: reloading the identical one-
endpoint configuration leaves the handle map untouched, cancels nothing,
and sweeps `a` exactly once. -/
theorem reconciliation_idempotent_witness :
    (reload_tick witnessSweepProbe (some [("a", witnessEndpoint)])
      witnessStateEq).1.tasks = witnessStateEq.tasks ∧
    (reload_tick witnessSweepProbe (some [("a", witnessEndpoint)])
      witnessStateEq).2.1 = [] ∧
    ((reload_tick witnessSweepProbe (some [("a", witnessEndpoint)])
      witnessStateEq).2.2.map (fun r => r.name)).count "a" = 1 := by
  have h := reconciliation_idempotent witnessSweepProbe
    [("a", witnessEndpoint)] witnessStateEq
    (by decide) (by decide) (fun k e => rfl)
  refine ⟨h.1, h.2.2.2.1, ?_⟩
  rw [h.2.2.2.2.2.1 "a", if_pos (by decide)]

/-- C3: a reload tick whose configuration re-parse fails is skipped
without disturbing any observable state: the tick returns the state
exactly as it was — snapshot, handle map, status map and token supply —
cancels nothing and appends nothing to the event sink; and its result
does not depend on the probe oracle at all, so no probe is performed. -/
theorem reload_parse_failure_preserves_state
    (probe : String → Endpoint → CheckResult) (st : ReconState) :
    reload_tick probe none st = (st, [], []) ∧
    (reload_tick probe none st).1.current = st.current ∧
    (reload_tick probe none st).1.tasks = st.tasks ∧
    (reload_tick probe none st).1.results = st.results ∧
    (∀ probe' : String → Endpoint → CheckResult,
      reload_tick probe' none st = reload_tick probe none st) :=
  ⟨rfl, rfl, rfl, rfl, fun _ => rfl⟩

end UptimeForge
